import Mathlib

/-!
Shallow embedding of the tiling-window-manager policy core
(`src/rust_wm/src/entities.rs`) and the configuration loader
(`src/src/config.rs`), with theorems checking the specification's claims.

Machine integers: Rust `u64` ids are modelled as `Nat` (no id arithmetic in
the verified operations can overflow at the scales involved), Rust `i32`
geometry values as `Int` (the clamping code only uses `min`/`max`, which
cannot overflow).

Compositor-reported data (`miral::WindowInfo` queries: name, type, state,
parent presence, min/max size bounds) is modelled as fields of the `Window`
record holding the values the compositor would report during the operation
under study; calls that mutate the compositor surface are modelled by
returning the issued request alongside the new state.

Rust panics (`unwrap`, `expect`, out-of-bounds `Vec` indexing) and `Result`
errors are both modelled by `Option`-valued operations returning `none`.
-/

namespace Egmde

abbrev Id := Nat

/-- Rust `Size { width, height }` over `i32`. -/
structure Size where
  width : Int
  height : Int
deriving DecidableEq, Repr

/-- The `MirWindowType` values relevant to this code base. -/
inductive MirWindowType where
  | normal
  | utility
  | dialog
  | gloss
  | menu
  | inputmethod
  | satellite
  | tip
  | freestyle
  | decoration
deriving DecidableEq, Repr

/-- The `MirWindowState` values relevant to this code base. -/
inductive MirWindowState where
  | unknown
  | restored
  | maximized
  | vertmaximized
  | minimized
  | fullscreen
  | horizmaximized
  | hidden
  | attached
deriving DecidableEq, Repr

/-- Rust `Window`: the policy-level record plus the compositor-reported
data its methods query through the `window_info` handle (`name()`,
`has_parent()`, `type_()`, `state()`, `min_width()` …). -/
structure Window where
  id : Id
  workspace : Id
  x : Int
  y : Int
  size : Size
  is_dragged : Bool
  name : String
  hasParent : Bool
  wtype : MirWindowType
  wstate : MirWindowState
  minWidth : Int
  maxWidth : Int
  minHeight : Int
  maxHeight : Int
deriving DecidableEq, Repr

/-- `Window::set_size`: clamp each dimension with
`max (min requested max_bound) min_bound` and store the result in the
cached `size` field. -/
def Window.set_size (w : Window) (s : Size) : Window :=
  { w with size :=
      { width := max (min s.width w.maxWidth) w.minWidth
        height := max (min s.height w.maxHeight) w.minHeight } }

/-- `Window::resize`: first `set_size`, then issue a resize to the
compositor handle.  The second component is the size issued to the
compositor: the Rust code converts the *parameter* `size` (not the clamped
`self.size`) and passes it to `window().resize(..)`. -/
def Window.resize (w : Window) (s : Size) : Window × Size :=
  (w.set_size s, s)

/-- `Window::is_tiled`. -/
def Window.is_tiled (w : Window) : Bool :=
  w.name != "Ulauncher window title"
    && !w.hasParent
    && (w.wtype == MirWindowType.normal || w.wtype == MirWindowType.freestyle)
    && w.wstate != MirWindowState.fullscreen
    && w.wstate != MirWindowState.attached

/-- Association-list model of Rust's `BTreeMap<Id, _>`: `insert` keeps
entries in strictly increasing key order (overwriting an equal key), so
`Table.values` iterates values in ascending key order like
`BTreeMap::values`. -/
abbrev Table (α : Type) := List (Id × α)

/-- `BTreeMap::get`. -/
def Table.find? {α : Type} : Table α → Id → Option α
  | [], _ => none
  | (k, v) :: t, k' => if k' = k then some v else Table.find? t k'

/-- `BTreeMap::insert` (ordered insert, replacing an equal key). -/
def Table.insert {α : Type} : Table α → Id → α → Table α
  | [], k, v => [(k, v)]
  | (k', v') :: t, k, v =>
    if k < k' then (k, v) :: (k', v') :: t
    else if k = k' then (k, v) :: t
    else (k', v') :: Table.insert t k v

/-- `BTreeMap::remove` (drops the first entry with the given key). -/
def Table.eraseKey {α : Type} : Table α → Id → Table α
  | [], _ => []
  | (k', v') :: t, k => if k = k' then t else (k', v') :: Table.eraseKey t k

/-- `BTreeMap::get_mut(&k)` followed by assigning through the mutable
reference: replaces the value of the (first) entry with key `k`; `none`
models the `unwrap` panic when the key is absent. -/
def Table.updateKey {α : Type} : Table α → Id → α → Option (Table α)
  | [], _, _ => none
  | (k', v') :: t, k, v =>
    if k = k' then some ((k', v) :: t)
    else (Table.updateKey t k v).map (fun t' => (k', v') :: t')

/-- `BTreeMap::values` iteration order. -/
def Table.values {α : Type} (t : Table α) : List α := t.map Prod.snd

/-- The keys of a table. -/
def Table.keys {α : Type} (t : Table α) : List Id := t.map Prod.fst

/-- Rust `Workspace`. -/
structure Workspace where
  id : Id
  on_monitor : Option Id
  scroll_left : Int
  windows : List Id
  active_window : Option Id
deriving DecidableEq, Repr

/-- `Workspace::new(&mut id_generator)` with the id the generator hands
out. -/
def Workspace.new (id : Id) : Workspace :=
  { id := id, on_monitor := none, scroll_left := 0, windows := [], active_window := none }

/-- `Workspace::get_window_index`: index of the first member equal to
`window`. -/
def Workspace.get_window_index (ws : Workspace) (window : Id) : Option Nat :=
  ws.windows.findIdx? (fun w => w == window)

/-- `Vec::swap(i, j)`; `none` models the out-of-bounds panic. -/
def listSwap (l : List Id) (i j : Nat) : Option (List Id) :=
  match l[i]?, l[j]? with
  | some a, some b => some ((l.set i b).set j a)
  | _, _ => none

/-- `Workspace::swap_windows`: looks up both raw indices (`unwrap`
panics, modelled by `none`, when either id is not a member) and swaps
them. -/
def Workspace.swap_windows (ws : Workspace) (a b : Id) : Option Workspace :=
  match ws.get_window_index a, ws.get_window_index b with
  | some ia, some ib =>
    (listSwap ws.windows ia ib).map (fun l => { ws with windows := l })
  | _, _ => none

/-- Rust `WindowManager`, restricted to the state the claims touch.  The
monitor table, gesture and cursor state are independent of every verified
operation; `window_next_id`/`workspace_next_id` model the two
`IdGenerator`s' counters. -/
structure WindowManager where
  window_next_id : Id
  workspace_next_id : Id
  windows : Table Window
  workspaces : Table Workspace
  active_window : Option Id
  active_workspace : Id
deriving DecidableEq, Repr

/-- Helper for `Workspace::get_tiled_windows`: filter member ids by
`is_tiled`, in member order; `none` models the `get_window` panic when a
member id is missing from the window table. -/
def getTiledAux (wm : WindowManager) : List Id → Option (List Id)
  | [] => some []
  | i :: rest =>
    match Table.find? wm.windows i with
    | none => none
    | some w =>
      (getTiledAux wm rest).map (fun tl => if w.is_tiled then i :: tl else tl)

/-- `Workspace::get_tiled_windows`. -/
def Workspace.get_tiled_windows (ws : Workspace) (wm : WindowManager) : Option (List Id) :=
  getTiledAux wm ws.windows

/-- `Workspace::get_tiled_window_index`: position of `window` inside the
tiled-only subsequence.  Outer `none` is the `get_window` panic, inner
`none` the expected not-found answer. -/
def Workspace.get_tiled_window_index (ws : Workspace) (wm : WindowManager) (window : Id) :
    Option (Option Nat) :=
  (ws.get_tiled_windows wm).map (fun tl => tl.findIdx? (fun w => w == window))

/-- `WindowManager::activate_window`: reads the window's workspace
back-reference, then mutates that workspace through
`workspaces.get_mut(&workspace_id).unwrap()` (the `find?`/`updateKey`
pair models reading and writing the same entry). -/
def WindowManager.activate_window (wm : WindowManager) (window_id : Id) :
    Option WindowManager :=
  match Table.find? wm.windows window_id with
  | none => none
  | some w =>
    match Table.find? wm.workspaces w.workspace with
    | none => none
    | some ws =>
      match Table.updateKey wm.workspaces w.workspace
          { ws with active_window := some window_id } with
      | none => none
      | some t' =>
        some { wm with
          workspaces := t'
          active_window := some window_id
          active_workspace := w.workspace }

/-- Modelled from the spec: `focus_exclusive_client` lives in the
input-inhibitor module, outside the sources under study.  Per the spec it
"redirects focus to whichever client currently holds exclusive input,
bypassing normal activation": it moves the manager's focus (through
`focus_window`, which sets `active_window`) and never touches the entity
tables; the exclusive client's id is a parameter. -/
def focus_exclusive_client (wm : WindowManager) (exclusive : Option Id) : WindowManager :=
  { wm with active_window := exclusive }

/-- The tail of `WindowManager::add_window` after the window is
registered: unless it has a parent, either activate it (input inhibitor
allows focus) or defer to the exclusive client. -/
def addWindowFinish (wm1 : WindowManager) (window : Window)
    (allowed : Bool) (exclusive : Option Id) : Option WindowManager :=
  if !window.hasParent then
    if allowed then wm1.activate_window window.id
    else some (focus_exclusive_client wm1 exclusive)
  else some wm1

/-- `WindowManager::add_window`.  `allowed` models the input-inhibitor
collaborator's `is_allowed(&window)` answer and `exclusive` the client it
would focus instead.  `none` models the `unwrap`/`expect` panics (unknown
target workspace; the manager's active window not a member of the target
workspace).  The member-sequence mutation happens through
`workspaces.get_mut(&window.workspace).unwrap()`, modelled by
`find?`/`updateKey` on the same key. -/
def WindowManager.add_window (wm : WindowManager) (window : Window)
    (allowed : Bool) (exclusive : Option Id) : Option WindowManager :=
  match Table.find? wm.workspaces window.workspace with
  | none => none
  | some ws =>
    match (match wm.active_window with
           | some active =>
             (ws.get_window_index active).map
               (fun i => ws.windows.insertIdx (i + 1) window.id)
           | none => some (ws.windows ++ [window.id])) with
    | none => none
    | some members =>
      match Table.updateKey wm.workspaces window.workspace
          { ws with windows := members } with
      | none => none
      | some t' =>
        addWindowFinish
          { wm with
            workspaces := t'
            windows := Table.insert wm.windows window.id window }
          window allowed exclusive

/-- `WindowManager::remove_window_from_workspace`.  The workspace is
read through the window's `workspace` back-reference
(`get_workspace(get_window(window).workspace)`), but both mutations go
through `workspaces.get_mut(&workspace_id).unwrap()` where
`workspace_id` is the *id field* of the workspace just read; the model
keeps that distinction.  `none` models both the lookup panics and the
`Err(())` early returns (every caller `expect`s the `Result`). -/
def WindowManager.remove_window_from_workspace (wm : WindowManager) (window : Id) :
    Option WindowManager :=
  match Table.find? wm.windows window with
  | none => none
  | some w =>
    match Table.find? wm.workspaces w.workspace with
    | none => none
    | some ws =>
      match (if ws.active_window = some window then
               (if w.is_tiled then
                  match ws.get_tiled_windows wm with
                  | none => none
                  | some tl =>
                    match tl.findIdx? (fun x => x == window) with
                    | none => none
                    | some k =>
                      some (some (tl[(if k > 0 then k - 1 else k + 1)]?))
                else
                  match ws.get_tiled_windows wm with
                  | none => none
                  | some tl => some (some tl.getLast?))
             else some none) with
      | none => none
      | some reassign? =>
        match (match reassign? with
               | none => some wm.workspaces
               | some next =>
                 match Table.find? wm.workspaces ws.id with
                 | none => none
                 | some ws0 =>
                   Table.updateKey wm.workspaces ws.id
                     { ws0 with active_window := next }) with
        | none => none
        | some t1 =>
          match Table.find? t1 ws.id with
          | none => none
          | some ws1 =>
            match ws1.get_window_index window with
            | none => none
            | some raw_index =>
              match Table.updateKey t1 ws.id
                  { ws1 with windows := ws1.windows.eraseIdx raw_index } with
              | none => none
              | some t2 => some { wm with workspaces := t2 }

/-- `WindowManager::delete_window`.  `input_inhibitor.clear_if_dead()`
only touches the collaborator's own state and is not modelled. -/
def WindowManager.delete_window (wm : WindowManager) (window_id : Id) :
    Option WindowManager :=
  (wm.remove_window_from_workspace window_id).map (fun wm1 =>
    let wm2 := { wm1 with windows := Table.eraseKey wm1.windows window_id }
    if wm2.active_window = some window_id then { wm2 with active_window := none } else wm2)

/-- `WindowManager::get_or_create_unused_workspace`. -/
def WindowManager.get_or_create_unused_workspace (wm : WindowManager) :
    Id × WindowManager :=
  let unused := (Table.values wm.workspaces).filter (fun w => w.on_monitor == none)
  match unused.head? with
  | none =>
    let first := Workspace.new wm.workspace_next_id
    let second := Workspace.new (wm.workspace_next_id + 1)
    (first.id,
      { wm with
        workspace_next_id := wm.workspace_next_id + 2
        workspaces :=
          Table.insert (Table.insert wm.workspaces first.id first) second.id second })
  | some first =>
    if unused.length = 1 then
      let additional := Workspace.new wm.workspace_next_id
      (first.id,
        { wm with
          workspace_next_id := wm.workspace_next_id + 1
          workspaces := Table.insert wm.workspaces additional.id additional })
    else (first.id, wm)

/-- Rust `Config` (`src/src/config.rs`); `KeyboardConfig` comes from an
external crate and is only compared with `==`, so it is modelled as an
arbitrary type with decidable equality. -/
structure Config (α : Type) where
  keyboard_layouts : List α
deriving DecidableEq, Repr

/-- The duplicate scan inside `Config::load`: the nested
`for (i, a) … for (j, b) … if a == b && i != j` loops, reported as the
first offending index pair in loop order. -/
def findDuplicate {α : Type} [DecidableEq α] (l : List α) : Option (Nat × Nat) :=
  l.enum.findSome? (fun p =>
    (l.enum.find? (fun q => p.2 == q.2 && p.1 != q.1)).map (fun q => (p.1, q.1)))

/-- `Config::load`, applied to the configuration the YAML parse produced
(reading and parsing the file are I/O and are taken as the given input
here).  Returns the parsed configuration unchanged unless the duplicate
scan fires, in which case it returns the error message. -/
def Config.load {α : Type} [DecidableEq α] (c : Config α) : Except String (Config α) :=
  match findDuplicate c.keyboard_layouts with
  | some (i, j) =>
    Except.error
      ("Duplicated keyboard layout in index " ++ toString i ++ " and " ++ toString j)
  | none => Except.ok c

/-! ## Concrete states used by witnesses and counterexamples -/

/-- A concrete window whose compositor-reported size bounds are
`[100, 200]` in both dimensions. -/
def boundedWindow : Window :=
  { id := 1, workspace := 1, x := 0, y := 0, size := ⟨0, 0⟩, is_dragged := false,
    name := "term", hasParent := false, wtype := MirWindowType.normal,
    wstate := MirWindowState.restored,
    minWidth := 100, maxWidth := 200, minHeight := 100, maxHeight := 200 }

/-- A tiled terminal window with id 1 on workspace 10. -/
def fsWin1 : Window :=
  { boundedWindow with id := 1, workspace := 10 }

/-- A fullscreen window with id 2 on workspace 10. -/
def fsWin2 : Window :=
  { boundedWindow with id := 2, workspace := 10, wstate := MirWindowState.fullscreen }

/-- Workspace 10, holding members 1 and 2 with member 1 active. -/
def fsWorkspace : Workspace :=
  { id := 10, on_monitor := some 1, scroll_left := 0,
    windows := [1, 2], active_window := some 1 }

/-- A one-workspace manager holding the tiled window `fsWin1` and the
fullscreen window `fsWin2`, both members of workspace 10. -/
def fullscreenWM : WindowManager :=
  { window_next_id := 3, workspace_next_id := 11,
    windows := [(1, fsWin1), (2, fsWin2)],
    workspaces := [(10, fsWorkspace)],
    active_window := some 1, active_workspace := 10 }

/-! ## Invariants and well-formedness predicates -/

/-- Every stored workspace's `id` field equals its table key: the code
only ever inserts with `workspaces.insert(w.id, w)`. -/
abbrev WorkspaceKeysMatch (t : Table Workspace) : Prop :=
  ∀ p ∈ t, Workspace.id p.2 = p.1

/-- The table's keys are pairwise distinct (a `BTreeMap` property). -/
abbrev TableKeysNodup {α : Type} (t : Table α) : Prop :=
  (Table.keys t).Nodup

/-- Every key in the table is below the id generator's next value:
ids are only handed out by the generator, which counts upward. -/
abbrev FreshGen {α : Type} (t : Table α) (n : Id) : Prop :=
  ∀ k ∈ Table.keys t, k < n

/-- Spec §8: for all workspaces, `active_window` is `None` or a member
of the workspace's member sequence. -/
def ActiveInv (wm : WindowManager) : Prop :=
  ∀ k ws, Table.find? wm.workspaces k = some ws →
    ∀ v, ws.active_window = some v → v ∈ ws.windows

/-- Spec §8: every window's `workspace` back-reference names an existing
workspace whose member sequence contains the window's id (which is also
its table key, see `WinKeysMatch`). -/
def BackRefInv (wm : WindowManager) : Prop :=
  ∀ k w, Table.find? wm.windows k = some w →
    ∃ ws, Table.find? wm.workspaces w.workspace = some ws ∧ k ∈ ws.windows

/-- Every stored window's `id` field equals its table key: the code only
ever inserts with `windows.insert(window.id, window)`. -/
def WinKeysMatch (wm : WindowManager) : Prop :=
  ∀ k w, Table.find? wm.windows k = some w → Window.id w = k

/-- Every workspace found in the table carries its own key as its `id`
field (the code only ever inserts with `workspaces.insert(w.id, w)`), so
reading a workspace through one key and writing it back through its `id`
field touch the same entry. -/
def WsKeysMatch (wm : WindowManager) : Prop :=
  ∀ k ws, Table.find? wm.workspaces k = some ws → Workspace.id ws = k

/-! ## Concrete states (continued) -/

/-- Window 1, a tiled member of workspace 10. -/
def c2Win1 : Window := { boundedWindow with id := 1, workspace := 10 }

/-- Window 3, a tiled member of workspace 10. -/
def c2Win3 : Window := { boundedWindow with id := 3, workspace := 10 }

/-- The newly added window 5, targeting workspace 10; it has a parent,
so `add_window` skips the focus step. -/
def c2Window : Window := { boundedWindow with id := 5, workspace := 10, hasParent := true }

/-- Workspace 10 with members `[1, 3]` and active member 1. -/
def c2Workspace : Workspace :=
  { id := 10, on_monitor := some 1, scroll_left := 0,
    windows := [1, 3], active_window := some 1 }

/-- A manager whose workspace-10 active member is window 1 but whose
globally active window is window 3. -/
def c2WM : WindowManager :=
  { window_next_id := 6, workspace_next_id := 11,
    windows := [(1, c2Win1), (3, c2Win3)],
    workspaces := [(10, c2Workspace)],
    active_window := some 3, active_workspace := 10 }

/-- A manager with one monitor-bound workspace (10) and one spare
workspace (11): `get_or_create_unused_workspace` hits the
exactly-one-spare case. -/
def c4WM : WindowManager :=
  { window_next_id := 1, workspace_next_id := 20,
    windows := [],
    workspaces :=
      [(10, { id := 10, on_monitor := some 1, scroll_left := 0,
              windows := [], active_window := none }),
       (11, { id := 11, on_monitor := none, scroll_left := 0,
              windows := [], active_window := none })],
    active_window := none, active_workspace := 10 }

/-- A manager whose only workspace is monitor-bound:
`get_or_create_unused_workspace` hits the zero-spares case. -/
def c10WM : WindowManager :=
  { window_next_id := 1, workspace_next_id := 20,
    windows := [],
    workspaces :=
      [(10, { id := 10, on_monitor := some 1, scroll_left := 0,
              windows := [], active_window := none })],
    active_window := none, active_workspace := 10 }

/-! ## Helper lemmas -/

theorem getTiledAux_sublist {wm : WindowManager} :
    ∀ {l tl : List Id}, getTiledAux wm l = some tl → tl.Sublist l := by
  intro l
  induction l with
  | nil =>
    intro tl h
    simp only [getTiledAux, Option.some.injEq] at h
    simp [← h]
  | cons i rest ih =>
    intro tl h
    simp only [getTiledAux] at h
    cases hfind : Table.find? wm.windows i with
    | none => rw [hfind] at h; simp at h
    | some w =>
      rw [hfind] at h
      cases hrec : getTiledAux wm rest with
      | none => rw [hrec] at h; simp at h
      | some tl' =>
        rw [hrec] at h
        simp only [Option.map_some', Option.some.injEq] at h
        subst h
        by_cases ht : w.is_tiled
        · simp only [ht, if_true]
          exact (ih hrec).cons₂ i
        · simp only [ht, if_false]
          exact (ih hrec).cons i

theorem mem_getTiledAux {wm : WindowManager} :
    ∀ {l tl : List Id} {v : Id}, getTiledAux wm l = some tl → v ∈ tl →
      ∃ w, Table.find? wm.windows v = some w ∧ w.is_tiled = true := by
  intro l
  induction l with
  | nil =>
    intro tl v h hv
    simp only [getTiledAux, Option.some.injEq] at h
    subst h; simp at hv
  | cons i rest ih =>
    intro tl v h hv
    simp only [getTiledAux] at h
    cases hfind : Table.find? wm.windows i with
    | none => rw [hfind] at h; simp at h
    | some w =>
      rw [hfind] at h
      cases hrec : getTiledAux wm rest with
      | none => rw [hrec] at h; simp at h
      | some tl' =>
        rw [hrec] at h
        simp only [Option.map_some', Option.some.injEq] at h
        subst h
        by_cases ht : w.is_tiled
        · simp only [ht, if_true] at hv
          rcases List.mem_cons.mp hv with rfl | hv'
          · exact ⟨w, hfind, ht⟩
          · exact ih hrec hv'
        · simp only [ht, if_false] at hv
          exact ih hrec hv

/-! ## C1 -/


/-- C1 counterexample: for the request `50 × 60` on a window with bounds
`[100, 200]`, `resize` stores the clamped size `100 × 100` as
`cached_size` but issues the raw request `50 × 60` — not the clamped
size — to the compositor handle, refuting the claim that the clamped
size is issued. -/
theorem C1_counterexample :
    (boundedWindow.resize ⟨50, 60⟩).2 = ⟨50, 60⟩ ∧
    ((boundedWindow.resize ⟨50, 60⟩).1).size = ⟨100, 100⟩ ∧
    (⟨50, 60⟩ : Size) ≠ ⟨100, 100⟩ := by
  refine ⟨rfl, by decide, by decide⟩

/-- C1 (amended): `resize(requested)` first applies `set_size` — which
clamps each dimension independently into `[min, max]` and stores the
result as the cached size — and then issues the *raw requested* size
(not the clamped one) to the compositor handle. -/
theorem C1_resize_clamps_cache_issues_raw (w : Window) (s : Size) :
    w.resize s = (w.set_size s, s) ∧
    (w.set_size s).size.width = max (min s.width w.maxWidth) w.minWidth ∧
    (w.set_size s).size.height = max (min s.height w.maxHeight) w.minHeight :=
  ⟨rfl, rfl, rfl⟩

/-! ## C7 -/

/-- C7: `is_tiled` holds iff the window has no parent, its
compositor-reported type is normal or freestyle, its state is neither
fullscreen nor attached, and its title is not the excluded launcher
title; and a member window whose current state is fullscreen never
appears in the tiled-members list. -/
theorem C7_is_tiled_characterization :
    (∀ w : Window, w.is_tiled = true ↔
      (w.hasParent = false ∧
        (w.wtype = MirWindowType.normal ∨ w.wtype = MirWindowType.freestyle) ∧
        w.wstate ≠ MirWindowState.fullscreen ∧
        w.wstate ≠ MirWindowState.attached ∧
        w.name ≠ "Ulauncher window title")) ∧
    (∀ (wm : WindowManager) (ws : Workspace) (tl : List Id) (v : Id) (w : Window),
      ws.get_tiled_windows wm = some tl →
      Table.find? wm.windows v = some w →
      w.wstate = MirWindowState.fullscreen →
      v ∉ tl) := by
  constructor
  · intro w
    simp only [Window.is_tiled, Bool.and_eq_true, Bool.or_eq_true, bne_iff_ne, ne_eq,
      Bool.not_eq_true', beq_iff_eq]
    tauto
  · intro wm ws tl v w htl hfind hfs hmem
    obtain ⟨w', hfind', htiled⟩ := mem_getTiledAux htl hmem
    rw [hfind] at hfind'
    cases hfind'
    rw [Window.is_tiled, hfs] at htiled
    simp at htiled


/-- C7 witness: in `fullscreenWM`, the tiled-members list of workspace 10
is `[1]`, window 2 is reported fullscreen, and the theorem rules window 2
out of the tiled-members list. -/
theorem C7_witness :
    fsWorkspace.get_tiled_windows fullscreenWM = some [1] ∧
    Table.find? fullscreenWM.windows 2 = some fsWin2 ∧
    fsWin2.wstate = MirWindowState.fullscreen ∧
    2 ∉ ([1] : List Id) := by
  refine ⟨by decide, by decide, by decide, ?_⟩
  exact C7_is_tiled_characterization.2 fullscreenWM fsWorkspace [1] 2 fsWin2
    (by decide) (by decide) (by decide)

/-! ## C9 -/

/-- C9: given a configuration that read and parsed successfully,
`Config::load` returns the parsed configuration unchanged when no two
entries of `keyboard_layouts` at distinct indices are equal, and returns
an error when two such entries exist. -/
theorem C9_config_load_duplicates {α : Type} [DecidableEq α] (c : Config α) :
    (¬ (∃ (i j : Nat) (a : α), i ≠ j ∧ c.keyboard_layouts[i]? = some a ∧ c.keyboard_layouts[j]? = some a) →
      Config.load c = Except.ok c) ∧
    ((∃ (i j : Nat) (a : α), i ≠ j ∧ c.keyboard_layouts[i]? = some a ∧ c.keyboard_layouts[j]? = some a) →
      ∃ e, Config.load c = Except.error e) := by
  constructor
  · intro hnodup
    rw [Config.load]
    cases hfd : findDuplicate c.keyboard_layouts with
    | none => rfl
    | some p =>
      exfalso
      obtain ⟨i, j⟩ := p
      obtain ⟨q, hq, hmap⟩ := List.exists_of_findSome?_eq_some hfd
      cases hfind : List.find? (fun r => q.2 == r.2 && q.1 != r.1) c.keyboard_layouts.enum with
      | none => rw [hfind] at hmap; simp at hmap
      | some r =>
        have hqmem : c.keyboard_layouts[q.1]? = some q.2 := by
          have := (List.mk_mem_enum_iff_getElem? (l := c.keyboard_layouts)).mp hq
          exact this
        have hrmem : c.keyboard_layouts[r.1]? = some r.2 :=
          (List.mk_mem_enum_iff_getElem?).mp (List.mem_of_find?_eq_some hfind)
        have hpred := List.find?_some hfind
        simp only [Bool.and_eq_true, beq_iff_eq, bne_iff_ne, ne_eq] at hpred
        exact hnodup ⟨q.1, r.1, q.2, hpred.2, hqmem, hpred.1 ▸ hrmem⟩
  · intro hdup
    rw [Config.load]
    cases hfd : findDuplicate c.keyboard_layouts with
    | some p => exact ⟨_, rfl⟩
    | none =>
      exfalso
      obtain ⟨i, j, a, hij, hi, hj⟩ := hdup
      rw [findDuplicate, List.findSome?_eq_none_iff] at hfd
      have hienum : (i, a) ∈ c.keyboard_layouts.enum :=
        (List.mk_mem_enum_iff_getElem?).mpr hi
      have hjenum : (j, a) ∈ c.keyboard_layouts.enum :=
        (List.mk_mem_enum_iff_getElem?).mpr hj
      have := hfd (i, a) hienum
      rw [Option.map_eq_none', List.find?_eq_none] at this
      have := this (j, a) hjenum
      simp [hij] at this

/-- C9 witness: the list `[5, 7, 5]` has a duplicate and `load` rejects
it; the list `[5, 7]` has none and `load` returns it unchanged. -/
theorem C9_witness :
    (∃ e, Config.load (Config.mk ([5, 7, 5] : List Nat)) = Except.error e) ∧
    Config.load (Config.mk ([5, 7] : List Nat)) = Except.ok (Config.mk [5, 7]) := by
  constructor
  · exact (C9_config_load_duplicates (Config.mk [5, 7, 5])).2
      ⟨0, 2, 5, by decide, by decide, by decide⟩
  · refine (C9_config_load_duplicates (Config.mk [5, 7])).1 ?_
    rintro ⟨i, j, a, hij, hi, hj⟩
    have hilt : i < 2 := by
      by_contra h
      have hnone : ([5, 7] : List Nat)[i]? = none := List.getElem?_eq_none (by simp; omega)
      rw [hnone] at hi
      exact Option.noConfusion hi
    have hjlt : j < 2 := by
      by_contra h
      have hnone : ([5, 7] : List Nat)[j]? = none := List.getElem?_eq_none (by simp; omega)
      rw [hnone] at hj
      exact Option.noConfusion hj
    interval_cases i <;> interval_cases j <;> simp_all <;> omega

/-! ## C8 -/

theorem exists_findIdx?_beq {l : List Id} {a : Id} (ha : a ∈ l) :
    ∃ i, l.findIdx? (fun x => x == a) = some i := by
  cases h : l.findIdx? (fun x => x == a) with
  | none => exact absurd (List.findIdx?_eq_none_iff.mp h a ha) (by simp)
  | some i => exact ⟨i, rfl⟩

theorem findIdx?_beq_bound_val {l : List Id} {a : Id} {i : Nat}
    (h : l.findIdx? (fun x => x == a) = some i) :
    ∃ hlt : i < l.length, l.get ⟨i, hlt⟩ = a := by
  obtain ⟨hlt, hp, -⟩ := List.findIdx?_eq_some_iff_getElem.mp h
  exact ⟨hlt, by simpa using hp⟩

theorem listSwap_eq_of {l : List Id} {i j : Nat} {x y : Id}
    (hi : l[i]? = some x) (hj : l[j]? = some y) :
    listSwap l i j = some ((l.set i y).set j x) := by
  unfold listSwap
  rw [hi, hj]

/-- C8: for any two ids `a` and `b` that are both members of a
workspace's member sequence (member sequences list distinct window ids,
hence the `Nodup` hypothesis), `swap_windows a b` succeeds and applying
it twice restores the workspace to its original state. -/
theorem C8_swap_windows_double (ws : Workspace) (a b : Id)
    (hnd : ws.windows.Nodup) (ha : a ∈ ws.windows) (hb : b ∈ ws.windows) :
    ∃ ws1, ws.swap_windows a b = some ws1 ∧ ws1.swap_windows a b = some ws := by
  obtain ⟨ia, hia⟩ := exists_findIdx?_beq ha
  obtain ⟨ib, hib⟩ := exists_findIdx?_beq hb
  obtain ⟨hialt, hva⟩ := findIdx?_beq_bound_val hia
  obtain ⟨hiblt, hvb⟩ := findIdx?_beq_bound_val hib
  have hgia : ws.windows[ia]? = some a := by
    rw [List.getElem?_eq_getElem hialt]
    exact congrArg some hva
  have hgib : ws.windows[ib]? = some b := by
    rw [List.getElem?_eq_getElem hiblt]
    exact congrArg some hvb
  by_cases hab : a = b
  · subst hab
    have hieq : ia = ib := by
      rw [hia] at hib
      exact Option.some.inj hib
    subst hieq
    have hsame : (ws.windows.set ia a).set ia a = ws.windows := by
      apply List.ext_getElem?
      intro n
      by_cases hn : n = ia
      · subst hn
        rw [List.getElem?_set_self (by simpa using hialt), hgia]
      · rw [List.getElem?_set_ne (fun h => hn h.symm),
          List.getElem?_set_ne (fun h => hn h.symm)]
    have hfirst : ws.swap_windows a a = some ws := by
      unfold Workspace.swap_windows Workspace.get_window_index
      rw [hia]
      show Option.map _ (listSwap ws.windows ia ia) = some ws
      rw [listSwap_eq_of hgia hgia]
      simp only [Option.map_some', Option.some.injEq]
      rw [hsame]
    exact ⟨ws, hfirst, hfirst⟩
  · have hne : ia ≠ ib := by
      intro h
      apply hab
      rw [← hva, ← hvb]
      subst h
      rfl
    have h1ib : ((ws.windows.set ia b).set ib a)[ib]? = some a :=
      List.getElem?_set_self (by simpa using hiblt)
    have h1ia : ((ws.windows.set ia b).set ib a)[ia]? = some b := by
      rw [List.getElem?_set_ne (fun h => hne h.symm)]
      exact List.getElem?_set_self (by simpa using hialt)
    have h1other : ∀ n, n ≠ ia → n ≠ ib →
        ((ws.windows.set ia b).set ib a)[n]? = ws.windows[n]? := by
      intro n hn1 hn2
      rw [List.getElem?_set_ne (fun h => hn2 h.symm),
        List.getElem?_set_ne (fun h => hn1 h.symm)]
    have huniq_a : ∀ j, (hj : j < ws.windows.length) →
        ws.windows.get ⟨j, hj⟩ = a → j = ia := by
      intro j hj hval
      have : ws.windows.get ⟨j, hj⟩ = ws.windows.get ⟨ia, hialt⟩ := by rw [hval, hva]
      have := hnd.get_inj_iff.mp this
      exact congrArg Fin.val this
    have huniq_b : ∀ j, (hj : j < ws.windows.length) →
        ws.windows.get ⟨j, hj⟩ = b → j = ib := by
      intro j hj hval
      have : ws.windows.get ⟨j, hj⟩ = ws.windows.get ⟨ib, hiblt⟩ := by rw [hval, hvb]
      have := hnd.get_inj_iff.mp this
      exact congrArg Fin.val this
    have hlen1 : ((ws.windows.set ia b).set ib a).length = ws.windows.length := by
      simp
    have hfa1 : ((ws.windows.set ia b).set ib a).findIdx? (fun x => x == a) = some ib := by
      rw [List.findIdx?_eq_some_iff_getElem]
      refine ⟨by simpa using hiblt, ?_, ?_⟩
      · have := h1ib
        rw [List.getElem?_eq_getElem (by simpa using hiblt)] at this
        simp [Option.some.inj this]
      · intro j hj
        simp only [Bool.not_eq_true, beq_eq_false_iff_ne, ne_eq]
        intro hcontra
        by_cases hja : j = ia
        · subst hja
          have := h1ia
          rw [List.getElem?_eq_getElem (by simp; omega)] at this
          rw [Option.some.inj this] at hcontra
          exact hab hcontra.symm
        · have hjlt : j < ws.windows.length := by
            have := hiblt
            omega
          have heq2 : ((ws.windows.set ia b).set ib a)[j]? = ws.windows[j]? :=
            h1other j hja (by omega)
          rw [List.getElem?_eq_getElem (by simp; omega),
            List.getElem?_eq_getElem hjlt] at heq2
          have hval : ws.windows.get ⟨j, hjlt⟩ = a := by
            rw [List.get_eq_getElem, ← Option.some.inj heq2]
            exact hcontra
          exact hja (huniq_a j hjlt hval)
    have hfb1 : ((ws.windows.set ia b).set ib a).findIdx? (fun x => x == b) = some ia := by
      rw [List.findIdx?_eq_some_iff_getElem]
      refine ⟨by simpa using hialt, ?_, ?_⟩
      · have := h1ia
        rw [List.getElem?_eq_getElem (by simpa using hialt)] at this
        simp [Option.some.inj this]
      · intro j hj
        simp only [Bool.not_eq_true, beq_eq_false_iff_ne, ne_eq]
        intro hcontra
        by_cases hjb : j = ib
        · subst hjb
          have := h1ib
          rw [List.getElem?_eq_getElem (by simp; omega)] at this
          rw [Option.some.inj this] at hcontra
          exact hab hcontra
        · have hjlt : j < ws.windows.length := by
            have := hialt
            omega
          have heq2 : ((ws.windows.set ia b).set ib a)[j]? = ws.windows[j]? :=
            h1other j (by omega) hjb
          rw [List.getElem?_eq_getElem (by simp; omega),
            List.getElem?_eq_getElem hjlt] at heq2
          have hval : ws.windows.get ⟨j, hjlt⟩ = b := by
            rw [List.get_eq_getElem, ← Option.some.inj heq2]
            exact hcontra
          exact hjb (huniq_b j hjlt hval)
    have hback : (((ws.windows.set ia b).set ib a).set ib b).set ia a = ws.windows := by
      apply List.ext_getElem?
      intro n
      by_cases hn1 : n = ia
      · subst hn1
        rw [List.getElem?_set_self (by simpa using hialt), hgia]
      · rw [List.getElem?_set_ne (fun h => hn1 h.symm)]
        by_cases hn2 : n = ib
        · subst hn2
          rw [List.getElem?_set_self (by simpa using hiblt), hgib]
        · rw [List.getElem?_set_ne (fun h => hn2 h.symm)]
          exact h1other n hn1 hn2
    refine ⟨{ ws with windows := (ws.windows.set ia b).set ib a }, ?_, ?_⟩
    · unfold Workspace.swap_windows Workspace.get_window_index
      rw [hia, hib]
      show Option.map _ (listSwap ws.windows ia ib) = _
      rw [listSwap_eq_of hgia hgib]
      rfl
    · unfold Workspace.swap_windows Workspace.get_window_index
      rw [hfa1, hfb1]
      show Option.map _ (listSwap ((ws.windows.set ia b).set ib a) ib ia) = some ws
      rw [listSwap_eq_of h1ib h1ia]
      simp only [Option.map_some', Option.some.injEq]
      rw [hback]

/-- C8 witness: on the workspace with members `[4, 6, 8]`, swapping 4
and 8 twice restores the original workspace. -/
theorem C8_witness :
    ∃ ws1, Workspace.swap_windows
        { id := 3, on_monitor := none, scroll_left := 0,
          windows := [4, 6, 8], active_window := some 4 } 4 8 = some ws1 ∧
      ws1.swap_windows 4 8 = some
        { id := 3, on_monitor := none, scroll_left := 0,
          windows := [4, 6, 8], active_window := some 4 } :=
  C8_swap_windows_double
    { id := 3, on_monitor := none, scroll_left := 0,
      windows := [4, 6, 8], active_window := some 4 } 4 8
    (by decide) (by decide) (by decide)

/-! ## Table lemmas -/

theorem Table.find?_insert_self {α : Type} (t : Table α) (k : Id) (v : α) :
    Table.find? (Table.insert t k v) k = some v := by
  induction t with
  | nil => simp [Table.insert, Table.find?]
  | cons p t ih =>
    obtain ⟨k0, v0⟩ := p
    by_cases h1 : k < k0
    · simp [Table.insert, h1, Table.find?]
    · by_cases h2 : k = k0
      · simp [Table.insert, h1, h2, Table.find?]
      · simp [Table.insert, h1, h2, Table.find?, ih]

theorem Table.find?_insert_ne {α : Type} (t : Table α) {k k2 : Id} (v : α) (h : k2 ≠ k) :
    Table.find? (Table.insert t k v) k2 = Table.find? t k2 := by
  induction t with
  | nil => simp [Table.insert, Table.find?, h]
  | cons p t ih =>
    obtain ⟨k0, v0⟩ := p
    by_cases h1 : k < k0
    · simp [Table.insert, h1, Table.find?, h]
    · by_cases h2 : k = k0
      · subst h2
        simp [Table.insert, h1, Table.find?, h]
      · by_cases h3 : k2 = k0 <;> simp [Table.insert, h1, h2, Table.find?, h3, ih]

theorem Table.find?_updateKey_self {α : Type} :
    ∀ {t t' : Table α} {k : Id} {v : α},
      Table.updateKey t k v = some t' → Table.find? t' k = some v := by
  intro t
  induction t with
  | nil =>
    intro t' k v h
    simp [Table.updateKey] at h
  | cons p t ih =>
    intro t' k v h
    obtain ⟨k0, v0⟩ := p
    by_cases h1 : k = k0
    · rw [Table.updateKey, if_pos h1] at h
      obtain rfl := Option.some.inj h
      simp [Table.find?, h1]
    · rw [Table.updateKey, if_neg h1] at h
      obtain ⟨t2, ht2, rfl⟩ := Option.map_eq_some'.mp h
      simp [Table.find?, h1, ih ht2]

theorem Table.find?_updateKey_ne {α : Type} :
    ∀ {t t' : Table α} {k k2 : Id} {v : α},
      Table.updateKey t k v = some t' → k2 ≠ k →
        Table.find? t' k2 = Table.find? t k2 := by
  intro t
  induction t with
  | nil =>
    intro t' k k2 v h hne
    simp [Table.updateKey] at h
  | cons p t ih =>
    intro t' k k2 v h hne
    obtain ⟨k0, v0⟩ := p
    by_cases h1 : k = k0
    · rw [Table.updateKey, if_pos h1] at h
      obtain rfl := Option.some.inj h
      subst h1
      simp [Table.find?, hne]
    · rw [Table.updateKey, if_neg h1] at h
      obtain ⟨t2, ht2, rfl⟩ := Option.map_eq_some'.mp h
      by_cases h3 : k2 = k0 <;> simp [Table.find?, h3, ih ht2 hne]

theorem Table.updateKey_of_find? {α : Type} :
    ∀ {t : Table α} {k : Id} {w : α}, Table.find? t k = some w →
      ∀ v, ∃ t', Table.updateKey t k v = some t' := by
  intro t
  induction t with
  | nil =>
    intro k w h v
    simp [Table.find?] at h
  | cons p t ih =>
    intro k w h v
    obtain ⟨k0, v0⟩ := p
    by_cases h1 : k = k0
    · exact ⟨(k0, v) :: t, by simp [Table.updateKey, h1]⟩
    · rw [Table.find?, if_neg h1] at h
      obtain ⟨t2, ht2⟩ := ih h v
      exact ⟨(k0, v0) :: t2, by simp [Table.updateKey, h1, ht2]⟩

theorem Table.find?_eq_none_of_not_mem_keys {α : Type} :
    ∀ {t : Table α} {k : Id}, k ∉ Table.keys t → Table.find? t k = none := by
  intro t
  induction t with
  | nil => intro k _; rfl
  | cons p t ih =>
    intro k h
    obtain ⟨k0, v0⟩ := p
    simp only [Table.keys, List.map_cons, List.mem_cons, not_or] at h
    rw [Table.find?, if_neg h.1]
    exact ih (by simpa [Table.keys] using h.2)

theorem Table.find?_eraseKey_ne {α : Type} :
    ∀ (t : Table α) {k k2 : Id}, k2 ≠ k →
      Table.find? (Table.eraseKey t k) k2 = Table.find? t k2 := by
  intro t
  induction t with
  | nil => intro k k2 _; rfl
  | cons p t ih =>
    intro k k2 hne
    obtain ⟨k0, v0⟩ := p
    by_cases h1 : k = k0
    · subst h1
      simp [Table.eraseKey, Table.find?, hne]
    · by_cases h3 : k2 = k0 <;> simp [Table.eraseKey, h1, Table.find?, h3, ih hne]

theorem Table.find?_eraseKey_self {α : Type} :
    ∀ (t : Table α) (k : Id), (Table.keys t).Nodup →
      Table.find? (Table.eraseKey t k) k = none := by
  intro t
  induction t with
  | nil => intro k _; rfl
  | cons p t ih =>
    intro k hnd
    obtain ⟨k0, v0⟩ := p
    simp only [Table.keys, List.map_cons, List.nodup_cons] at hnd
    by_cases h1 : k = k0
    · subst h1
      simp only [Table.eraseKey, if_pos rfl]
      exact Table.find?_eq_none_of_not_mem_keys hnd.1
    · simp only [Table.eraseKey, if_neg h1, Table.find?, if_neg h1]
      exact ih k (by simpa [Table.keys] using hnd.2)

/-! ## C2 -/

/-- C2 counterexample: in `c2WM`, workspace 10's active member is window
1 and its members are `[1, 3]`, so the claim predicts members
`[1, 5, 3]` after adding window 5; but the manager's globally active
window is window 3, and the code inserts after *it*, yielding
`[1, 3, 5]`. -/
theorem C2_counterexample :
    c2Workspace.active_window = some 1 ∧
    c2Workspace.windows = [1, 3] ∧
    (c2WM.add_window c2Window true none).map
        (fun wm' => (Table.find? wm'.workspaces 10).map Workspace.windows)
      = some (some [1, 3, 5]) ∧
    ([1, 3, 5] : List Id) ≠ [1, 5, 3] := by
  refine ⟨rfl, rfl, by decide, by decide⟩

theorem addWindowFinish_members {wm1 : WindowManager} {window : Window}
    {allowed : Bool} {exclusive : Option Id} {wm' : WindowManager}
    (h : addWindowFinish wm1 window allowed exclusive = some wm') (k : Id) :
    (Table.find? wm'.workspaces k).map Workspace.windows
      = (Table.find? wm1.workspaces k).map Workspace.windows := by
  unfold addWindowFinish at h
  by_cases hp : window.hasParent
  · simp only [hp, Bool.not_true, Bool.false_eq_true, if_false, Option.some.injEq] at h
    subst h
    rfl
  · by_cases hal : allowed
    · rw [Bool.not_eq_true] at hp
      simp only [hp, Bool.not_false, if_true, hal, if_true] at h
      unfold WindowManager.activate_window at h
      cases hw : Table.find? wm1.windows window.id with
      | none => simp only [hw] at h; exact Option.noConfusion h
      | some w =>
        simp only [hw] at h
        cases hws : Table.find? wm1.workspaces w.workspace with
        | none => simp only [hws] at h; exact Option.noConfusion h
        | some ws0 =>
          simp only [hws] at h
          cases hupd : Table.updateKey wm1.workspaces w.workspace
              { ws0 with active_window := some window.id } with
          | none => simp only [hupd] at h; exact Option.noConfusion h
          | some t2 =>
            simp only [hupd, Option.some.injEq] at h
            subst h
            by_cases hk : k = w.workspace
            · subst hk
              rw [Table.find?_updateKey_self hupd, hws]
              rfl
            · rw [Table.find?_updateKey_ne hupd hk]
    · rw [Bool.not_eq_true] at hp
      simp only [hp, Bool.not_false, if_true, hal, Bool.false_eq_true, if_false,
        Option.some.injEq] at h
      subst h
      rfl

/-- C2 (amended): `add_window` inserts the new window's id immediately
after the position of the *manager's* globally active window in the
target workspace's member sequence (that window must be a member of the
target workspace, or the operation panics), or appends it at the end
when the manager has no active window — the target workspace's own
`active_window` plays no role. -/
theorem C2_add_window_insertion (wm : WindowManager) (window : Window)
    (allowed : Bool) (exclusive : Option Id) (wm' : WindowManager)
    (h : wm.add_window window allowed exclusive = some wm') :
    ∃ ws, Table.find? wm.workspaces window.workspace = some ws ∧
      ∃ ws', Table.find? wm'.workspaces window.workspace = some ws' ∧
        (wm.active_window = none → ws'.windows = ws.windows ++ [window.id]) ∧
        (∀ a, wm.active_window = some a →
          ∃ i, ws.get_window_index a = some i ∧
            ws'.windows = ws.windows.insertIdx (i + 1) window.id) := by
  unfold WindowManager.add_window at h
  cases hws : Table.find? wm.workspaces window.workspace with
  | none => simp only [hws] at h; exact Option.noConfusion h
  | some ws =>
    simp only [hws] at h
    refine ⟨ws, rfl, ?_⟩
    cases hact : wm.active_window with
    | none =>
      simp only [hact] at h
      cases hupd : Table.updateKey wm.workspaces window.workspace
          { ws with windows := ws.windows ++ [window.id] } with
      | none => simp only [hupd] at h; exact Option.noConfusion h
      | some t' =>
        simp only [hupd] at h
        have hmem := addWindowFinish_members h window.workspace
        dsimp only at hmem
        rw [Table.find?_updateKey_self hupd] at hmem
        simp only [Option.map_some'] at hmem
        obtain ⟨ws', hws', hwin⟩ := Option.map_eq_some'.mp hmem
        exact ⟨ws', hws', fun _ => hwin, fun a ha => absurd ha (by simp)⟩
    | some active =>
      simp only [hact] at h
      cases hidx : ws.get_window_index active with
      | none => simp only [hidx] at h; exact Option.noConfusion h
      | some i =>
        simp only [hidx, Option.map_some'] at h
        cases hupd : Table.updateKey wm.workspaces window.workspace
            { ws with windows := ws.windows.insertIdx (i + 1) window.id } with
        | none => simp only [hupd] at h; exact Option.noConfusion h
        | some t' =>
          simp only [hupd] at h
          have hmem := addWindowFinish_members h window.workspace
          dsimp only at hmem
          rw [Table.find?_updateKey_self hupd] at hmem
          simp only [Option.map_some'] at hmem
          obtain ⟨ws', hws', hwin⟩ := Option.map_eq_some'.mp hmem
          refine ⟨ws', hws', fun hc => absurd hc (by simp), ?_⟩
          intro a ha
          rw [Option.some.inj ha] at hidx
          exact ⟨i, hidx, hwin⟩

/-- C2 witness: running `add_window` on the concrete manager `c2WM`
(globally active window 3 at index 1 of workspace 10's members `[1, 3]`)
inserts window 5 at position 2. -/
theorem C2_amended_witness :
    ∃ wm', c2WM.add_window c2Window true none = some wm' ∧
      ∃ ws, Table.find? c2WM.workspaces c2Window.workspace = some ws ∧
        ∃ ws', Table.find? wm'.workspaces c2Window.workspace = some ws' ∧
          (c2WM.active_window = none → ws'.windows = ws.windows ++ [c2Window.id]) ∧
          (∀ a, c2WM.active_window = some a →
            ∃ i, ws.get_window_index a = some i ∧
              ws'.windows = ws.windows.insertIdx (i + 1) c2Window.id) := by
  cases hr : c2WM.add_window c2Window true none with
  | none => exact absurd hr (by decide)
  | some wm' =>
    exact ⟨wm', rfl, C2_add_window_insertion c2WM c2Window true none wm' hr⟩

/-! ## C4 and C10 -/

theorem Table.find?_of_mem {α : Type} :
    ∀ {t : Table α} {k : Id} {v : α}, TableKeysNodup t → (k, v) ∈ t →
      Table.find? t k = some v := by
  intro t
  induction t with
  | nil =>
    intro k v _ hmem
    simp at hmem
  | cons p t ih =>
    intro k v hnd hmem
    obtain ⟨k0, v0⟩ := p
    have hnd' : k0 ∉ Table.keys t ∧ TableKeysNodup t := by
      simpa [TableKeysNodup, Table.keys] using hnd
    rcases List.mem_cons.mp hmem with heq | hmem'
    · injection heq with h1 h2
      subst h1
      subst h2
      rw [Table.find?, if_pos rfl]
    · have hk : k ≠ k0 := by
        intro hc
        subst hc
        exact hnd'.1 (List.mem_map_of_mem Prod.fst hmem')
      rw [Table.find?, if_neg hk]
      exact ih hnd'.2 hmem'

theorem mem_of_mem_values {α : Type} {t : Table α} {v : α}
    (h : v ∈ Table.values t) : ∃ k, (k, v) ∈ t := by
  simp only [Table.values, List.mem_map] at h
  obtain ⟨⟨k, v2⟩, hmem, rfl⟩ := h
  exact ⟨k, hmem⟩

theorem values_map_id_eq_keys {t : Table Workspace} (hkm : WorkspaceKeysMatch t) :
    (Table.values t).map Workspace.id = Table.keys t := by
  unfold Table.values Table.keys
  rw [List.map_map]
  exact List.map_congr_left (fun p hp => hkm p hp)

theorem getOrCreate_eq_nil {wm : WindowManager}
    (hu : (Table.values wm.workspaces).filter (fun w => w.on_monitor == none) = []) :
    wm.get_or_create_unused_workspace =
      (wm.workspace_next_id,
        { wm with
          workspace_next_id := wm.workspace_next_id + 2
          workspaces :=
            Table.insert
              (Table.insert wm.workspaces wm.workspace_next_id
                (Workspace.new wm.workspace_next_id))
              (wm.workspace_next_id + 1)
              (Workspace.new (wm.workspace_next_id + 1)) }) := by
  unfold WindowManager.get_or_create_unused_workspace
  rw [hu]
  rfl

theorem getOrCreate_eq_one {wm : WindowManager} {f : Workspace}
    (hu : (Table.values wm.workspaces).filter (fun w => w.on_monitor == none) = [f]) :
    wm.get_or_create_unused_workspace =
      (f.id,
        { wm with
          workspace_next_id := wm.workspace_next_id + 1
          workspaces :=
            Table.insert wm.workspaces wm.workspace_next_id
              (Workspace.new wm.workspace_next_id) }) := by
  unfold WindowManager.get_or_create_unused_workspace
  rw [hu]
  rfl

theorem getOrCreate_eq_many {wm : WindowManager} {f f2 : Workspace} {rest : List Workspace}
    (hu : (Table.values wm.workspaces).filter (fun w => w.on_monitor == none)
        = f :: f2 :: rest) :
    wm.get_or_create_unused_workspace = (f.id, wm) := by
  unfold WindowManager.get_or_create_unused_workspace
  rw [hu]
  dsimp only [List.head?, List.length_cons]
  rw [if_neg (by omega)]

/-- An unbound workspace found by the scan resolves, by its own id, to
itself in the table. -/
theorem filter_mem_find? {wm : WindowManager}
    (hkm : WorkspaceKeysMatch wm.workspaces) (hnd : TableKeysNodup wm.workspaces)
    {f : Workspace}
    (hf : f ∈ (Table.values wm.workspaces).filter (fun w => w.on_monitor == none)) :
    Table.find? wm.workspaces f.id = some f ∧ f.on_monitor = none ∧
      f.id ∈ Table.keys wm.workspaces := by
  obtain ⟨hmem, hp⟩ := List.mem_filter.mp hf
  obtain ⟨k, hkmem⟩ := mem_of_mem_values hmem
  have hk : f.id = k := hkm (k, f) hkmem
  subst hk
  exact ⟨Table.find?_of_mem hnd hkmem, beq_iff_eq.mp hp,
    List.mem_map_of_mem Prod.fst hkmem⟩

/-- C4: `get_or_create_unused_workspace` follows the three-case
algorithm — no spare workspace: create two fresh ones and return the
first's id; exactly one spare: create one fresh reserve and return the
spare's id; two or more spares: return the first one's id with no
creation — and in every case the returned id resolves to a workspace
without a bound monitor, and an unbound workspace still exists
afterwards. -/
theorem C4_get_or_create_unused_workspace (wm : WindowManager)
    (hkm : WorkspaceKeysMatch wm.workspaces)
    (hnd : TableKeysNodup wm.workspaces)
    (hfresh : FreshGen wm.workspaces wm.workspace_next_id)
    (rid : Id) (wm2 : WindowManager)
    (hrun : wm.get_or_create_unused_workspace = (rid, wm2)) :
    (∃ ws, Table.find? wm2.workspaces rid = some ws ∧ ws.on_monitor = none) ∧
    (∃ k ws, Table.find? wm2.workspaces k = some ws ∧ ws.on_monitor = none) ∧
    ((Table.values wm.workspaces).filter (fun w => w.on_monitor == none) = [] →
      rid = wm.workspace_next_id ∧
      wm2.workspace_next_id = wm.workspace_next_id + 2 ∧
      Table.find? wm2.workspaces wm.workspace_next_id
        = some (Workspace.new wm.workspace_next_id) ∧
      Table.find? wm2.workspaces (wm.workspace_next_id + 1)
        = some (Workspace.new (wm.workspace_next_id + 1))) ∧
    (∀ f, (Table.values wm.workspaces).filter (fun w => w.on_monitor == none) = [f] →
      rid = f.id ∧
      wm2.workspace_next_id = wm.workspace_next_id + 1 ∧
      Table.find? wm2.workspaces wm.workspace_next_id
        = some (Workspace.new wm.workspace_next_id)) ∧
    (∀ f f2 rest,
      (Table.values wm.workspaces).filter (fun w => w.on_monitor == none)
        = f :: f2 :: rest →
      rid = f.id ∧ wm2 = wm) := by
  cases hu : (Table.values wm.workspaces).filter (fun w => w.on_monitor == none) with
  | nil =>
    rw [getOrCreate_eq_nil hu] at hrun
    injection hrun with h1 h2
    subst h1
    subst h2
    have hfind1 : Table.find?
        (Table.insert
          (Table.insert wm.workspaces wm.workspace_next_id
            (Workspace.new wm.workspace_next_id))
          (wm.workspace_next_id + 1) (Workspace.new (wm.workspace_next_id + 1)))
        wm.workspace_next_id = some (Workspace.new wm.workspace_next_id) := by
      have hne : wm.workspace_next_id ≠ wm.workspace_next_id + 1 := by simp
      rw [Table.find?_insert_ne _ _ hne, Table.find?_insert_self]
    have hfind2 : Table.find?
        (Table.insert
          (Table.insert wm.workspaces wm.workspace_next_id
            (Workspace.new wm.workspace_next_id))
          (wm.workspace_next_id + 1) (Workspace.new (wm.workspace_next_id + 1)))
        (wm.workspace_next_id + 1) = some (Workspace.new (wm.workspace_next_id + 1)) :=
      Table.find?_insert_self _ _ _
    refine ⟨⟨Workspace.new wm.workspace_next_id, hfind1, rfl⟩,
      ⟨wm.workspace_next_id + 1, Workspace.new (wm.workspace_next_id + 1), hfind2, rfl⟩,
      fun _ => ⟨rfl, rfl, hfind1, hfind2⟩,
      fun f hf => List.noConfusion hf,
      fun f f2 rest hf => List.noConfusion hf⟩
  | cons f tail =>
    cases tail with
    | nil =>
      rw [getOrCreate_eq_one hu] at hrun
      injection hrun with h1 h2
      subst h1
      subst h2
      have hfmem : f ∈ (Table.values wm.workspaces).filter (fun w => w.on_monitor == none) := by
        rw [hu]
        exact List.mem_singleton_self f
      obtain ⟨hffind, hfun, hfkey⟩ := filter_mem_find? hkm hnd hfmem
      have hflt : f.id < wm.workspace_next_id := hfresh f.id hfkey
      have hfind1 : Table.find?
          (Table.insert wm.workspaces wm.workspace_next_id
            (Workspace.new wm.workspace_next_id)) f.id = some f := by
        have hne : f.id ≠ wm.workspace_next_id := Nat.ne_of_lt hflt
        rw [Table.find?_insert_ne _ _ hne]
        exact hffind
      have hfind2 : Table.find?
          (Table.insert wm.workspaces wm.workspace_next_id
            (Workspace.new wm.workspace_next_id)) wm.workspace_next_id
          = some (Workspace.new wm.workspace_next_id) :=
        Table.find?_insert_self _ _ _
      refine ⟨⟨f, hfind1, hfun⟩,
        ⟨wm.workspace_next_id, Workspace.new wm.workspace_next_id, hfind2, rfl⟩,
        fun hc => List.noConfusion hc,
        ?_,
        fun g g2 grest hg => by
          injection hg with hx hy
          exact List.noConfusion hy⟩
      intro g hg
      injection hg with hfg hrest
      subst hfg
      exact ⟨rfl, rfl, hfind2⟩
    | cons f2 rest =>
      rw [getOrCreate_eq_many hu] at hrun
      injection hrun with h1 h2
      subst h1
      subst h2
      have hfmem : f ∈ (Table.values wm.workspaces).filter (fun w => w.on_monitor == none) := by
        rw [hu]
        exact List.mem_cons_self f _
      obtain ⟨hffind, hfun, -⟩ := filter_mem_find? hkm hnd hfmem
      refine ⟨⟨f, hffind, hfun⟩, ⟨f.id, f, hffind, hfun⟩,
        fun hc => List.noConfusion hc,
        fun g hg => by
          injection hg with hx hy
          exact List.noConfusion hy,
        ?_⟩
      intro g g2 grest hg
      injection hg with hfg hrest
      subst hfg
      exact ⟨rfl, rfl⟩

/-- C4 witness: on `c4WM` (one bound workspace, one spare) the call
returns the spare's id 11, creates reserve workspace 20, and both 11 and
20 are unbound afterwards. -/
theorem C4_witness :
    ∃ rid wm2, c4WM.get_or_create_unused_workspace = (rid, wm2) ∧
      ((∃ ws, Table.find? wm2.workspaces rid = some ws ∧ ws.on_monitor = none) ∧
        (∃ k ws, Table.find? wm2.workspaces k = some ws ∧ ws.on_monitor = none) ∧
        ((Table.values c4WM.workspaces).filter (fun w => w.on_monitor == none) = [] →
          rid = c4WM.workspace_next_id ∧
          wm2.workspace_next_id = c4WM.workspace_next_id + 2 ∧
          Table.find? wm2.workspaces c4WM.workspace_next_id
            = some (Workspace.new c4WM.workspace_next_id) ∧
          Table.find? wm2.workspaces (c4WM.workspace_next_id + 1)
            = some (Workspace.new (c4WM.workspace_next_id + 1))) ∧
        (∀ f, (Table.values c4WM.workspaces).filter (fun w => w.on_monitor == none) = [f] →
          rid = f.id ∧
          wm2.workspace_next_id = c4WM.workspace_next_id + 1 ∧
          Table.find? wm2.workspaces c4WM.workspace_next_id
            = some (Workspace.new c4WM.workspace_next_id)) ∧
        (∀ f f2 rest,
          (Table.values c4WM.workspaces).filter (fun w => w.on_monitor == none)
            = f :: f2 :: rest →
          rid = f.id ∧ wm2 = c4WM)) := by
  refine ⟨(c4WM.get_or_create_unused_workspace).1,
    (c4WM.get_or_create_unused_workspace).2, rfl, ?_⟩
  exact C4_get_or_create_unused_workspace c4WM (by decide) (by decide) (by decide)
    _ _ rfl

/-- C10: whenever `get_or_create_unused_workspace` returns id `w`, the
workspace `w` has no bound monitor, and a *second*, distinct workspace
with no bound monitor also exists — so a caller may bind `w` and a spare
still remains. -/
theorem C10_returned_and_distinct_spare (wm : WindowManager)
    (hkm : WorkspaceKeysMatch wm.workspaces)
    (hnd : TableKeysNodup wm.workspaces)
    (hfresh : FreshGen wm.workspaces wm.workspace_next_id)
    (rid : Id) (wm2 : WindowManager)
    (hrun : wm.get_or_create_unused_workspace = (rid, wm2)) :
    (∃ ws, Table.find? wm2.workspaces rid = some ws ∧ ws.on_monitor = none) ∧
    (∃ k ws, k ≠ rid ∧ Table.find? wm2.workspaces k = some ws ∧
      ws.on_monitor = none) := by
  cases hu : (Table.values wm.workspaces).filter (fun w => w.on_monitor == none) with
  | nil =>
    rw [getOrCreate_eq_nil hu] at hrun
    injection hrun with h1 h2
    subst h1
    subst h2
    refine ⟨⟨Workspace.new wm.workspace_next_id, ?_, rfl⟩,
      ⟨wm.workspace_next_id + 1, Workspace.new (wm.workspace_next_id + 1),
        Nat.succ_ne_self _, Table.find?_insert_self _ _ _, rfl⟩⟩
    have hne : wm.workspace_next_id ≠ wm.workspace_next_id + 1 := by simp
    rw [Table.find?_insert_ne _ _ hne, Table.find?_insert_self]
  | cons f tail =>
    cases tail with
    | nil =>
      rw [getOrCreate_eq_one hu] at hrun
      injection hrun with h1 h2
      subst h1
      subst h2
      have hfmem : f ∈ (Table.values wm.workspaces).filter (fun w => w.on_monitor == none) := by
        rw [hu]
        exact List.mem_singleton_self f
      obtain ⟨hffind, hfun, hfkey⟩ := filter_mem_find? hkm hnd hfmem
      have hflt : f.id < wm.workspace_next_id := hfresh f.id hfkey
      refine ⟨⟨f, ?_, hfun⟩,
        ⟨wm.workspace_next_id, Workspace.new wm.workspace_next_id, Nat.ne_of_gt hflt,
          Table.find?_insert_self _ _ _, rfl⟩⟩
      have hne : f.id ≠ wm.workspace_next_id := Nat.ne_of_lt hflt
      rw [Table.find?_insert_ne _ _ hne]
      exact hffind
    | cons f2 rest =>
      rw [getOrCreate_eq_many hu] at hrun
      injection hrun with h1 h2
      subst h1
      subst h2
      have hfmem : f ∈ (Table.values wm.workspaces).filter (fun w => w.on_monitor == none) := by
        rw [hu]
        exact List.mem_cons_self f _
      have hf2mem : f2 ∈ (Table.values wm.workspaces).filter (fun w => w.on_monitor == none) := by
        rw [hu]
        exact List.mem_cons_of_mem f (List.mem_cons_self f2 rest)
      obtain ⟨hffind, hfun, -⟩ := filter_mem_find? hkm hnd hfmem
      obtain ⟨hf2find, hf2un, -⟩ := filter_mem_find? hkm hnd hf2mem
      have hids : (((Table.values wm.workspaces).filter
          (fun w => w.on_monitor == none)).map Workspace.id).Nodup := by
        have hsub : List.Sublist
            (((Table.values wm.workspaces).filter
              (fun w => w.on_monitor == none)).map Workspace.id)
            ((Table.values wm.workspaces).map Workspace.id) :=
          (List.filter_sublist _).map Workspace.id
        rw [values_map_id_eq_keys hkm] at hsub
        exact hnd.sublist hsub
      rw [hu] at hids
      simp only [List.map_cons, List.nodup_cons, List.mem_cons, not_or] at hids
      exact ⟨⟨f, hffind, hfun⟩, ⟨f2.id, f2, fun hc => hids.1.1 hc.symm, hf2find, hf2un⟩⟩

/-- C10 witness: on `c10WM` (no spare workspace) the call creates
workspaces 20 and 21; it returns 20 (unbound) and 21 remains as a
distinct unbound spare. -/
theorem C10_witness :
    ∃ rid wm2, c10WM.get_or_create_unused_workspace = (rid, wm2) ∧
      ((∃ ws, Table.find? wm2.workspaces rid = some ws ∧ ws.on_monitor = none) ∧
        (∃ k ws, k ≠ rid ∧ Table.find? wm2.workspaces k = some ws ∧
          ws.on_monitor = none)) := by
  refine ⟨(c10WM.get_or_create_unused_workspace).1,
    (c10WM.get_or_create_unused_workspace).2, rfl, ?_⟩
  exact C10_returned_and_distinct_spare c10WM (by decide) (by decide) (by decide)
    _ _ rfl

/-! ## C3 -/

/-- C3: when `remove_window_from_workspace` removes the workspace's
current active member `v`: if `v` is tiled with tiled-index `k`, the new
active window is the tiled list's entry at `k − 1` when `k > 0`, else at
`k + 1` (absent entry — no neighbor — leaves the workspace with no
active window); if `v` is floating, the new active window is the last
tiled member, if any.  The tiled list `tl` is the one computed *before*
`v` is removed from the member sequence.  The hypothesis
`ws.id = w.workspace` records that workspace table keys are the
workspaces' own ids, as everywhere in the code. -/
theorem C3_remove_active_reassignment (wm : WindowManager) (v : Id) (w : Window)
    (ws : Workspace) (tl : List Id)
    (hwin : Table.find? wm.windows v = some w)
    (hws : Table.find? wm.workspaces w.workspace = some ws)
    (hid : ws.id = w.workspace)
    (hact : ws.active_window = some v)
    (htl : ws.get_tiled_windows wm = some tl)
    (hvmem : v ∈ ws.windows) :
    (∀ k, w.is_tiled = true → tl.findIdx? (fun x => x == v) = some k →
      ∃ wm', wm.remove_window_from_workspace v = some wm' ∧
        ∃ ws2, Table.find? wm'.workspaces ws.id = some ws2 ∧
          ws2.active_window = tl[(if k > 0 then k - 1 else k + 1)]? ∧
          ∃ i, ws.get_window_index v = some i ∧
            ws2.windows = ws.windows.eraseIdx i) ∧
    (w.is_tiled = false →
      ∃ wm', wm.remove_window_from_workspace v = some wm' ∧
        ∃ ws2, Table.find? wm'.workspaces ws.id = some ws2 ∧
          ws2.active_window = tl.getLast? ∧
          ∃ i, ws.get_window_index v = some i ∧
            ws2.windows = ws.windows.eraseIdx i) := by
  have hws2 : Table.find? wm.workspaces ws.id = some ws := by
    rw [hid]
    exact hws
  obtain ⟨i, hi⟩ := exists_findIdx?_beq hvmem
  constructor
  · intro k hwt hk
    obtain ⟨t1, ht1⟩ := Table.updateKey_of_find? hws2
      { ws with active_window := tl[(if k > 0 then k - 1 else k + 1)]? }
    have hfind_t1 := Table.find?_updateKey_self ht1
    obtain ⟨t2, ht2⟩ := Table.updateKey_of_find? hfind_t1
      { ws with active_window := tl[(if k > 0 then k - 1 else k + 1)]?
                windows := ws.windows.eraseIdx i }
    refine ⟨{ wm with workspaces := t2 }, ?_, ?_⟩
    · unfold WindowManager.remove_window_from_workspace
      simp only [hwin, hws, hact, hwt, if_true]
      simp only [Workspace.get_tiled_windows] at htl
      simp only [Workspace.get_tiled_windows, htl, hk, hws2, ht1, hfind_t1]
      simp only [Workspace.get_window_index, hi, ht2]
    · refine ⟨_, Table.find?_updateKey_self ht2, rfl, i, hi, rfl⟩
  · intro hwf
    obtain ⟨t1, ht1⟩ := Table.updateKey_of_find? hws2
      { ws with active_window := tl.getLast? }
    have hfind_t1 := Table.find?_updateKey_self ht1
    obtain ⟨t2, ht2⟩ := Table.updateKey_of_find? hfind_t1
      { ws with active_window := tl.getLast?
                windows := ws.windows.eraseIdx i }
    refine ⟨{ wm with workspaces := t2 }, ?_, ?_⟩
    · unfold WindowManager.remove_window_from_workspace
      simp only [hwin, hws, hact, hwf, if_true, Bool.false_eq_true, if_false]
      simp only [Workspace.get_tiled_windows] at htl
      simp only [Workspace.get_tiled_windows, htl, hws2, ht1, hfind_t1]
      simp only [Workspace.get_window_index, hi, ht2]
    · refine ⟨_, Table.find?_updateKey_self ht2, rfl, i, hi, rfl⟩

/-- C3 witness: in `fullscreenWM`, removing the active tiled window 1
(the sole tiled member, tiled-index 0) leaves workspace 10 with no
active window, and its member sequence becomes `[2]`. -/
theorem C3_witness :
    ∃ wm', fullscreenWM.remove_window_from_workspace 1 = some wm' ∧
      ∃ ws2, Table.find? wm'.workspaces fsWorkspace.id = some ws2 ∧
        ws2.active_window = ([1] : List Id)[(if 0 > 0 then 0 - 1 else 0 + 1 : Nat)]? ∧
        ∃ i, fsWorkspace.get_window_index 1 = some i ∧
          ws2.windows = fsWorkspace.windows.eraseIdx i :=
  (C3_remove_active_reassignment fullscreenWM 1 fsWin1 fsWorkspace [1]
    (by decide) (by decide) (by decide) (by decide) (by decide) (by decide)).1
    0 (by decide) (by decide)

/-! ## Helper lemmas for the invariant claims (C5, C6) -/

theorem Table.mem_of_find? {α : Type} :
    ∀ {t : Table α} {k : Id} {v : α}, Table.find? t k = some v → (k, v) ∈ t := by
  intro t
  induction t with
  | nil =>
    intro k v h
    simp [Table.find?] at h
  | cons p t ih =>
    intro k v h
    obtain ⟨k0, v0⟩ := p
    by_cases h1 : k = k0
    · rw [Table.find?, if_pos h1] at h
      obtain rfl := Option.some.inj h
      subst h1
      exact List.mem_cons_self _ _
    · rw [Table.find?, if_neg h1] at h
      exact List.mem_cons_of_mem _ (ih h)

theorem mem_eraseIdx_of_ne :
    ∀ {l : List Id} {i : Nat} {a c : Id},
      a ∈ l → l[i]? = some c → a ≠ c → a ∈ l.eraseIdx i := by
  intro l
  induction l with
  | nil =>
    intro i a c ha _ _
    simp at ha
  | cons x t ih =>
    intro i a c ha hc hne
    cases i with
    | zero =>
      simp only [List.getElem?_cons_zero, Option.some.injEq] at hc
      subst hc
      rcases List.mem_cons.mp ha with rfl | hmem
      · exact absurd rfl hne
      · simpa [List.eraseIdx] using hmem
    | succ i =>
      simp only [List.getElem?_cons_succ] at hc
      rcases List.mem_cons.mp ha with rfl | hmem
      · exact List.mem_cons_self _ _
      · exact List.mem_cons_of_mem _ (ih hmem hc hne)

theorem two_le_count_of_two_positions :
    ∀ {l : List Id} {i j : Nat} {a : Id},
      i ≠ j → l[i]? = some a → l[j]? = some a → 2 ≤ l.count a := by
  intro l
  induction l with
  | nil =>
    intro i j a _ hi _
    simp at hi
  | cons x t ih =>
    intro i j a hij hi hj
    cases i with
    | zero =>
      simp only [List.getElem?_cons_zero, Option.some.injEq] at hi
      subst hi
      cases j with
      | zero => exact absurd rfl hij
      | succ j =>
        simp only [List.getElem?_cons_succ] at hj
        have hmem : x ∈ t := List.getElem?_mem hj
        have h1 : 1 ≤ t.count x := List.count_pos_iff.mpr hmem
        rw [List.count_cons_self]
        omega
    | succ i =>
      simp only [List.getElem?_cons_succ] at hi
      cases j with
      | zero =>
        simp only [List.getElem?_cons_zero, Option.some.injEq] at hj
        subst hj
        have hmem : x ∈ t := List.getElem?_mem hi
        have h1 : 1 ≤ t.count x := List.count_pos_iff.mpr hmem
        rw [List.count_cons_self]
        omega
      | succ j =>
        simp only [List.getElem?_cons_succ] at hj
        have h2 := ih (fun hc => hij (by rw [hc])) hi hj
        have hle : t.count a ≤ (x :: t).count a := by
          rw [List.count_cons]
          exact Nat.le_add_right _ _
        exact le_trans h2 hle

theorem count_eraseIdx_ge :
    ∀ (l : List Id) (i : Nat) (a : Id), l.count a - 1 ≤ (l.eraseIdx i).count a := by
  intro l
  induction l with
  | nil =>
    intro i a
    simp [List.eraseIdx]
  | cons x t ih =>
    intro i a
    cases i with
    | zero =>
      simp only [List.eraseIdx]
      rw [List.count_cons]
      by_cases hxa : (x == a) = true
      · rw [if_pos hxa]
        omega
      · rw [if_neg hxa]
        omega
    | succ i =>
      simp only [List.eraseIdx]
      rw [List.count_cons, List.count_cons]
      have := ih i a
      omega

theorem mem_eraseIdx_of_two_le_count {l : List Id} {i : Nat} {a : Id}
    (h : 2 ≤ l.count a) : a ∈ l.eraseIdx i := by
  apply List.count_pos_iff.mp
  have := count_eraseIdx_ge l i a
  omega

/-- Master characterization of `remove_window_from_workspace`: the
window table is untouched, the removed window's workspace loses the
member at `v`'s first index and gets a possibly reassigned active
window, every other workspace entry is untouched, and the reassigned
active window follows the source's tiled/floating policy. -/
theorem remove_spec {wm : WindowManager} {v : Id} {wmr : WindowManager}
    (hwkm : WsKeysMatch wm)
    (h : wm.remove_window_from_workspace v = some wmr) :
    ∃ w ws i,
      Table.find? wm.windows v = some w ∧
      Table.find? wm.workspaces w.workspace = some ws ∧
      ws.windows.findIdx? (fun x => x == v) = some i ∧
      wmr.windows = wm.windows ∧
      wmr.active_window = wm.active_window ∧
      ∃ A,
        Table.find? wmr.workspaces w.workspace
          = some { ws with active_window := A, windows := ws.windows.eraseIdx i } ∧
        (∀ key, key ≠ w.workspace →
          Table.find? wmr.workspaces key = Table.find? wm.workspaces key) ∧
        (ws.active_window ≠ some v → A = ws.active_window) ∧
        (ws.active_window = some v → w.is_tiled = true →
          ∃ tl k, ws.get_tiled_windows wm = some tl ∧
            tl.findIdx? (fun x => x == v) = some k ∧
            A = tl[(if k > 0 then k - 1 else k + 1)]?) ∧
        (ws.active_window = some v → w.is_tiled = false →
          ∃ tl, ws.get_tiled_windows wm = some tl ∧ A = tl.getLast?) := by
  unfold WindowManager.remove_window_from_workspace at h
  cases hwv : Table.find? wm.windows v with
  | none => simp only [hwv] at h; exact Option.noConfusion h
  | some w =>
    simp only [hwv] at h
    cases hwsv : Table.find? wm.workspaces w.workspace with
    | none => simp only [hwsv] at h; exact Option.noConfusion h
    | some ws =>
      simp only [hwsv] at h
      have hid : ws.id = w.workspace := hwkm _ _ hwsv
      have hws_id : Table.find? wm.workspaces ws.id = some ws := by
        rw [hid]
        exact hwsv
      by_cases hcase : ws.active_window = some v
      · rw [if_pos hcase] at h
        by_cases hwt : w.is_tiled = true
        · rw [if_pos hwt] at h
          cases htl : ws.get_tiled_windows wm with
          | none => simp only [htl] at h; exact Option.noConfusion h
          | some tl =>
            simp only [htl] at h
            cases hk : tl.findIdx? (fun x => x == v) with
            | none => simp only [hk] at h; exact Option.noConfusion h
            | some k =>
              simp only [hk, hws_id] at h
              cases hupd1 : Table.updateKey wm.workspaces ws.id
                  { ws with active_window := tl[(if k > 0 then k - 1 else k + 1)]? } with
              | none => simp only [hupd1] at h; exact Option.noConfusion h
              | some t1 =>
                simp only [hupd1, Table.find?_updateKey_self hupd1,
                  Workspace.get_window_index] at h
                cases hi : ws.windows.findIdx? (fun x => x == v) with
                | none => simp only [hi] at h; exact Option.noConfusion h
                | some i =>
                  simp only [hi] at h
                  cases hupd2 : Table.updateKey t1 ws.id
                      { ws with active_window := tl[(if k > 0 then k - 1 else k + 1)]?
                                windows := ws.windows.eraseIdx i } with
                  | none => simp only [hupd2] at h; exact Option.noConfusion h
                  | some t2 =>
                    simp only [hupd2, Option.some.injEq] at h
                    subst h
                    refine ⟨w, ws, i, rfl, hwsv, hi, rfl, rfl,
                      tl[(if k > 0 then k - 1 else k + 1)]?, ?_, ?_, ?_, ?_, ?_⟩
                    · rw [← hid]
                      exact Table.find?_updateKey_self hupd2
                    · intro key hkey
                      have hkey2 : key ≠ ws.id := by rw [hid]; exact hkey
                      rw [show ({ wm with workspaces := t2 } : WindowManager).workspaces
                          = t2 from rfl]
                      rw [Table.find?_updateKey_ne hupd2 hkey2,
                        Table.find?_updateKey_ne hupd1 hkey2]
                    · intro hne
                      exact absurd hcase hne
                    · intro _ _
                      exact ⟨tl, k, htl, hk, rfl⟩
                    · intro _ hwf
                      rw [hwt] at hwf
                      exact Bool.noConfusion hwf
        · rw [if_neg hwt] at h
          cases htl : ws.get_tiled_windows wm with
          | none => simp only [htl] at h; exact Option.noConfusion h
          | some tl =>
            simp only [htl, hws_id] at h
            cases hupd1 : Table.updateKey wm.workspaces ws.id
                { ws with active_window := tl.getLast? } with
            | none => simp only [hupd1] at h; exact Option.noConfusion h
            | some t1 =>
              simp only [hupd1, Table.find?_updateKey_self hupd1,
                Workspace.get_window_index] at h
              cases hi : ws.windows.findIdx? (fun x => x == v) with
              | none => simp only [hi] at h; exact Option.noConfusion h
              | some i =>
                simp only [hi] at h
                cases hupd2 : Table.updateKey t1 ws.id
                    { ws with active_window := tl.getLast?
                              windows := ws.windows.eraseIdx i } with
                | none => simp only [hupd2] at h; exact Option.noConfusion h
                | some t2 =>
                  simp only [hupd2, Option.some.injEq] at h
                  subst h
                  refine ⟨w, ws, i, rfl, hwsv, hi, rfl, rfl, tl.getLast?, ?_, ?_, ?_, ?_, ?_⟩
                  · rw [← hid]
                    exact Table.find?_updateKey_self hupd2
                  · intro key hkey
                    have hkey2 : key ≠ ws.id := by rw [hid]; exact hkey
                    rw [show ({ wm with workspaces := t2 } : WindowManager).workspaces
                        = t2 from rfl]
                    rw [Table.find?_updateKey_ne hupd2 hkey2,
                      Table.find?_updateKey_ne hupd1 hkey2]
                  · intro hne
                    exact absurd hcase hne
                  · intro _ hwt2
                    rw [hwt2] at hwt
                    exact absurd rfl hwt
                  · intro _ _
                    exact ⟨tl, htl, rfl⟩
      · rw [if_neg hcase] at h
        simp only [hws_id, Workspace.get_window_index] at h
        cases hi : ws.windows.findIdx? (fun x => x == v) with
        | none => simp only [hi] at h; exact Option.noConfusion h
        | some i =>
          simp only [hi] at h
          cases hupd2 : Table.updateKey wm.workspaces ws.id
              { ws with windows := ws.windows.eraseIdx i } with
          | none => simp only [hupd2] at h; exact Option.noConfusion h
          | some t2 =>
            simp only [hupd2, Option.some.injEq] at h
            subst h
            refine ⟨w, ws, i, rfl, hwsv, hi, rfl, rfl, ws.active_window, ?_, ?_, ?_, ?_, ?_⟩
            · rw [← hid]
              exact Table.find?_updateKey_self hupd2
            · intro key hkey
              have hkey2 : key ≠ ws.id := by rw [hid]; exact hkey
              rw [show ({ wm with workspaces := t2 } : WindowManager).workspaces
                  = t2 from rfl]
              rw [Table.find?_updateKey_ne hupd2 hkey2]
            · intro _
              rfl
            · intro hav
              exact absurd hav hcase
            · intro hav
              exact absurd hav hcase

/-- Master characterization of `add_window`: the window is registered in
the window table under its id; the target workspace's member sequence
grows by the window's id (keeping all previous members); its active
window is either untouched or set to the new window; all other workspace
entries are untouched. -/
theorem add_spec {wm : WindowManager} {window : Window} {allowed : Bool}
    {exclusive : Option Id} {wm' : WindowManager}
    (h : wm.add_window window allowed exclusive = some wm') :
    ∃ ws members,
      Table.find? wm.workspaces window.workspace = some ws ∧
      window.id ∈ members ∧
      (∀ x ∈ ws.windows, x ∈ members) ∧
      wm'.windows = Table.insert wm.windows window.id window ∧
      ∃ A,
        Table.find? wm'.workspaces window.workspace
          = some { ws with windows := members, active_window := A } ∧
        (A = ws.active_window ∨ A = some window.id) ∧
        (∀ key, key ≠ window.workspace →
          Table.find? wm'.workspaces key = Table.find? wm.workspaces key) := by
  unfold WindowManager.add_window at h
  cases hwsv : Table.find? wm.workspaces window.workspace with
  | none => simp only [hwsv] at h; exact Option.noConfusion h
  | some ws =>
    simp only [hwsv] at h
    have hmembers : ∀ members,
        (match wm.active_window with
         | some active =>
           (ws.get_window_index active).map
             (fun i => ws.windows.insertIdx (i + 1) window.id)
         | none => some (ws.windows ++ [window.id])) = some members →
        window.id ∈ members ∧ ∀ x ∈ ws.windows, x ∈ members := by
      intro members hm
      cases hact : wm.active_window with
      | none =>
        simp only [hact] at hm
        obtain rfl := Option.some.inj hm
        exact ⟨List.mem_append_right _ (List.mem_singleton_self _),
          fun x hx => List.mem_append_left _ hx⟩
      | some active =>
        simp only [hact] at hm
        cases hidx : ws.get_window_index active with
        | none =>
          simp only [hidx, Option.map_none'] at hm
          exact Option.noConfusion hm
        | some i =>
          simp only [hidx, Option.map_some'] at hm
          obtain rfl := Option.some.inj hm
          have hilt : i < ws.windows.length := by
            obtain ⟨hlt, -⟩ :=
              findIdx?_beq_bound_val (l := ws.windows) (a := active) hidx
            exact hlt
          have hle : i + 1 ≤ ws.windows.length := hilt
          constructor
          · exact (List.mem_insertIdx hle).mpr (Or.inl rfl)
          · intro x hx
            exact (List.mem_insertIdx hle).mpr (Or.inr hx)
    cases hm : (match wm.active_window with
               | some active =>
                 (ws.get_window_index active).map
                   (fun i => ws.windows.insertIdx (i + 1) window.id)
               | none => some (ws.windows ++ [window.id])) with
    | none => simp only [hm] at h; exact Option.noConfusion h
    | some members =>
      simp only [hm] at h
      obtain ⟨hmemid, hsubset⟩ := hmembers members hm
      cases hupd : Table.updateKey wm.workspaces window.workspace
          { ws with windows := members } with
      | none => simp only [hupd] at h; exact Option.noConfusion h
      | some t' =>
        simp only [hupd] at h
        refine ⟨ws, members, rfl, hmemid, hsubset, ?_, ?_⟩
        · -- the finish does not touch the windows table
          unfold addWindowFinish at h
          by_cases hp : window.hasParent
          · simp only [hp, Bool.not_true, Bool.false_eq_true, if_false,
              Option.some.injEq] at h
            subst h
            rfl
          · rw [Bool.not_eq_true] at hp
            by_cases hal : allowed
            · simp only [hp, Bool.not_false, if_true, hal] at h
              unfold WindowManager.activate_window at h
              cases hw1 : Table.find?
                  (Table.insert wm.windows window.id window) window.id with
              | none => simp only [hw1] at h; exact Option.noConfusion h
              | some w1 =>
                simp only [hw1] at h
                cases hws1 : Table.find? t' w1.workspace with
                | none => simp only [hws1] at h; exact Option.noConfusion h
                | some ws1 =>
                  simp only [hws1] at h
                  cases hupd2 : Table.updateKey t' w1.workspace
                      { ws1 with active_window := some window.id } with
                  | none => simp only [hupd2] at h; exact Option.noConfusion h
                  | some t2 =>
                    simp only [hupd2, Option.some.injEq] at h
                    subst h
                    rfl
            · simp only [hp, Bool.not_false, if_true, hal, Bool.false_eq_true,
                if_false, Option.some.injEq] at h
              subst h
              rfl
        · -- workspace-table characterization, by cases on the finish
          unfold addWindowFinish at h
          by_cases hp : window.hasParent
          · simp only [hp, Bool.not_true, Bool.false_eq_true, if_false,
              Option.some.injEq] at h
            subst h
            exact ⟨ws.active_window, Table.find?_updateKey_self hupd, Or.inl rfl,
              fun key hkey => Table.find?_updateKey_ne hupd hkey⟩
          · rw [Bool.not_eq_true] at hp
            by_cases hal : allowed
            · simp only [hp, Bool.not_false, if_true, hal] at h
              unfold WindowManager.activate_window at h
              have hw1 : Table.find?
                  (Table.insert wm.windows window.id window) window.id
                  = some window := Table.find?_insert_self _ _ _
              simp only [hw1] at h
              have hws1 : Table.find? t' window.workspace
                  = some { ws with windows := members } :=
                Table.find?_updateKey_self hupd
              simp only [hws1] at h
              cases hupd2 : Table.updateKey t' window.workspace
                  { { ws with windows := members } with
                    active_window := some window.id } with
              | none => simp only [hupd2] at h; exact Option.noConfusion h
              | some t2 =>
                simp only [hupd2, Option.some.injEq] at h
                subst h
                refine ⟨some window.id, ?_, Or.inr rfl, ?_⟩
                · exact Table.find?_updateKey_self hupd2
                · intro key hkey
                  show Table.find? t2 key = Table.find? wm.workspaces key
                  calc Table.find? t2 key
                      = Table.find? t' key := Table.find?_updateKey_ne hupd2 hkey
                    _ = Table.find? wm.workspaces key :=
                      Table.find?_updateKey_ne hupd hkey
            · simp only [hp, Bool.not_false, if_true, hal, Bool.false_eq_true,
                if_false, Option.some.injEq] at h
              subst h
              exact ⟨ws.active_window, Table.find?_updateKey_self hupd, Or.inl rfl,
                fun key hkey => Table.find?_updateKey_ne hupd hkey⟩

/-! ## C5 -/

/-- C5: the invariant "every workspace's `active_window` is `None` or a
member of that workspace's member sequence" is preserved by
`add_window`, `delete_window`, `activate_window` and
`remove_window_from_workspace`, assuming it, the window back-reference
invariant and workspace key/id coherence held before. -/
theorem C5_active_member_invariant (wm : WindowManager)
    (hA : ActiveInv wm) (hB : BackRefInv wm) (hwkm : WsKeysMatch wm) :
    (∀ window allowed exclusive wm',
      wm.add_window window allowed exclusive = some wm' → ActiveInv wm') ∧
    (∀ v wm', wm.delete_window v = some wm' → ActiveInv wm') ∧
    (∀ v wm', wm.activate_window v = some wm' → ActiveInv wm') ∧
    (∀ v wm', wm.remove_window_from_workspace v = some wm' → ActiveInv wm') := by
  have hrem : ∀ v wm', wm.remove_window_from_workspace v = some wm' → ActiveInv wm' := by
    intro v wm' h
    obtain ⟨w, ws, i, hwv, hwsv, hi, -, -, A, hfound, hother, hAnact, hAtiled, hAfloat⟩ :=
      remove_spec hwkm h
    obtain ⟨hilt, hival⟩ := findIdx?_beq_bound_val hi
    have hgi : ws.windows[i]? = some v := by
      rw [List.getElem?_eq_getElem hilt]
      exact congrArg some hival
    intro key ws2 hkey a ha
    by_cases hk : key = w.workspace
    · subst hk
      rw [hfound] at hkey
      obtain rfl := Option.some.inj hkey
      have hA_eq : A = some a := ha
      by_cases hcase : ws.active_window = some v
      · by_cases hwt : w.is_tiled = true
        · obtain ⟨tl, k, htl, hk2, hAval⟩ := hAtiled hcase hwt
          rw [hAval] at hA_eq
          have hmem_tl : a ∈ tl := List.getElem?_mem hA_eq
          have hsub : List.Sublist tl ws.windows := getTiledAux_sublist htl
          by_cases hav : a = v
          · subst hav
            obtain ⟨hklt, hkval⟩ := findIdx?_beq_bound_val hk2
            have hgk : tl[k]? = some a := by
              rw [List.getElem?_eq_getElem hklt]
              exact congrArg some hkval
            have hkne : (if k > 0 then k - 1 else k + 1) ≠ k := by
              by_cases h0 : k > 0
              · simp only [h0, if_true]
                omega
              · simp only [h0, if_false]
                omega
            have hcount : 2 ≤ tl.count a :=
              two_le_count_of_two_positions hkne hA_eq hgk
            exact mem_eraseIdx_of_two_le_count (le_trans hcount (hsub.count_le a))
          · exact mem_eraseIdx_of_ne (hsub.subset hmem_tl) hgi hav
        · rw [Bool.not_eq_true] at hwt
          obtain ⟨tl, htl, hAval⟩ := hAfloat hcase hwt
          rw [hAval] at hA_eq
          have hmem_tl : a ∈ tl := List.mem_of_getLast?_eq_some hA_eq
          have hsub : List.Sublist tl ws.windows := getTiledAux_sublist htl
          have hav : a ≠ v := by
            intro hc
            subst hc
            obtain ⟨w2, hw2, htiled2⟩ := mem_getTiledAux htl hmem_tl
            rw [hwv] at hw2
            obtain rfl := Option.some.inj hw2
            rw [htiled2] at hwt
            exact Bool.noConfusion hwt
          exact mem_eraseIdx_of_ne (hsub.subset hmem_tl) hgi hav
      · rw [hAnact hcase] at hA_eq
        have hmem : a ∈ ws.windows := hA w.workspace ws hwsv a hA_eq
        have hav : a ≠ v := by
          intro hc
          subst hc
          exact hcase hA_eq
        exact mem_eraseIdx_of_ne hmem hgi hav
    · rw [hother key hk] at hkey
      exact hA key ws2 hkey a ha
  refine ⟨?_, ?_, ?_, hrem⟩
  · intro window allowed exclusive wm' h
    obtain ⟨ws, members, hwsv, hmemid, hsubset, -, A, hfound, hAor, hother⟩ := add_spec h
    intro key ws2 hkey a ha
    by_cases hk : key = window.workspace
    · subst hk
      rw [hfound] at hkey
      obtain rfl := Option.some.inj hkey
      have hA_eq : A = some a := ha
      rcases hAor with hAw | hAid
      · rw [hAw] at hA_eq
        exact hsubset a (hA window.workspace ws hwsv a hA_eq)
      · rw [hAid] at hA_eq
        obtain rfl := Option.some.inj hA_eq
        exact hmemid
    · rw [hother key hk] at hkey
      exact hA key ws2 hkey a ha
  · intro v wm' h
    unfold WindowManager.delete_window at h
    obtain ⟨wm1, hrem1, heq⟩ := Option.map_eq_some'.mp h
    have hws_eq : wm'.workspaces = wm1.workspaces := by
      rw [← heq]
      dsimp only
      split <;> rfl
    intro key ws2 hkey a ha
    rw [hws_eq] at hkey
    exact hrem v wm1 hrem1 key ws2 hkey a ha
  · intro v wm' h
    unfold WindowManager.activate_window at h
    cases hwv : Table.find? wm.windows v with
    | none => simp only [hwv] at h; exact Option.noConfusion h
    | some w =>
      simp only [hwv] at h
      cases hwsv : Table.find? wm.workspaces w.workspace with
      | none => simp only [hwsv] at h; exact Option.noConfusion h
      | some ws0 =>
        simp only [hwsv] at h
        cases hupd : Table.updateKey wm.workspaces w.workspace
            { ws0 with active_window := some v } with
        | none => simp only [hupd] at h; exact Option.noConfusion h
        | some t' =>
          simp only [hupd, Option.some.injEq] at h
          subst h
          intro key ws2 hkey a ha
          by_cases hk : key = w.workspace
          · subst hk
            have hkey2 : Table.find? t' w.workspace = some ws2 := hkey
            rw [Table.find?_updateKey_self hupd] at hkey2
            obtain rfl := Option.some.inj hkey2
            have hva : v = a := Option.some.inj ha
            subst hva
            obtain ⟨ws3, hws3, hvmem⟩ := hB v w hwv
            rw [hwsv] at hws3
            obtain rfl := Option.some.inj hws3
            exact hvmem
          · have hkey2 : Table.find? t' key = some ws2 := hkey
            rw [Table.find?_updateKey_ne hupd hk] at hkey2
            exact hA key ws2 hkey2 a ha

/-! ## C6 -/

/-- C6: the invariant "every window's workspace back-reference names an
existing workspace whose member sequence contains the window's table key
(its id)" is preserved by `add_window` (which registers the id in both
places) and `delete_window` (which removes it from both), assuming the
invariant, distinct window-table keys and workspace key/id coherence
held before. -/
theorem C6_backref_invariant (wm : WindowManager)
    (hB : BackRefInv wm) (hndw : TableKeysNodup wm.windows) (hwkm : WsKeysMatch wm) :
    (∀ window allowed exclusive wm',
      wm.add_window window allowed exclusive = some wm' → BackRefInv wm') ∧
    (∀ v wm', wm.delete_window v = some wm' → BackRefInv wm') := by
  constructor
  · intro window allowed exclusive wm' h
    obtain ⟨ws, members, hwsv, hmemid, hsubset, hwin_eq, A, hfound, -, hother⟩ := add_spec h
    intro k w2 hk2
    rw [hwin_eq] at hk2
    by_cases hkid : k = window.id
    · subst hkid
      rw [Table.find?_insert_self] at hk2
      obtain rfl := Option.some.inj hk2
      exact ⟨{ ws with windows := members, active_window := A }, hfound, hmemid⟩
    · rw [Table.find?_insert_ne _ _ hkid] at hk2
      obtain ⟨ws0, h0, kmem⟩ := hB k w2 hk2
      by_cases hw2ws : w2.workspace = window.workspace
      · rw [hw2ws] at h0
        rw [hwsv] at h0
        obtain rfl := Option.some.inj h0
        refine ⟨{ ws with windows := members, active_window := A }, ?_, hsubset k kmem⟩
        rw [hw2ws]
        exact hfound
      · exact ⟨ws0, by rw [hother _ hw2ws]; exact h0, kmem⟩
  · intro v wm' h
    unfold WindowManager.delete_window at h
    obtain ⟨wm1, hrem1, heq⟩ := Option.map_eq_some'.mp h
    obtain ⟨w, ws, i, hwv, hwsv, hi, hwin1, -, A, hfound, hother, -, -, -⟩ :=
      remove_spec hwkm hrem1
    obtain ⟨hilt, hival⟩ := findIdx?_beq_bound_val hi
    have hgi : ws.windows[i]? = some v := by
      rw [List.getElem?_eq_getElem hilt]
      exact congrArg some hival
    have hws_eq : wm'.workspaces = wm1.workspaces := by
      rw [← heq]
      dsimp only
      split <;> rfl
    have hwin_eq : wm'.windows = Table.eraseKey wm.windows v := by
      rw [← heq]
      have : (let wm2 := { wm1 with windows := Table.eraseKey wm1.windows v };
          if wm2.active_window = some v then { wm2 with active_window := none }
          else wm2).windows = Table.eraseKey wm1.windows v := by
        dsimp only
        split <;> rfl
      rw [this, hwin1]
    intro k w2 hk2
    rw [hwin_eq] at hk2
    by_cases hkv : k = v
    · subst hkv
      rw [Table.find?_eraseKey_self _ _ hndw] at hk2
      exact Option.noConfusion hk2
    · rw [Table.find?_eraseKey_ne _ hkv] at hk2
      obtain ⟨ws0, h0, kmem⟩ := hB k w2 hk2
      by_cases hw2 : w2.workspace = w.workspace
      · rw [hw2] at h0
        rw [hwsv] at h0
        obtain rfl := Option.some.inj h0
        refine ⟨{ ws with active_window := A, windows := ws.windows.eraseIdx i },
          ?_, mem_eraseIdx_of_ne kmem hgi hkv⟩
        rw [hw2, hws_eq]
        exact hfound
      · refine ⟨ws0, ?_, kmem⟩
        rw [hws_eq, hother _ hw2]
        exact h0

theorem fullscreenWM_active_inv : ActiveInv fullscreenWM := by
  intro k ws h v hv
  have hm := Table.mem_of_find? h
  rw [show fullscreenWM.workspaces = [(10, fsWorkspace)] from rfl,
    List.mem_singleton] at hm
  injection hm with h1 h2
  subst h1
  subst h2
  have hv1 : v = 1 := by
    have : some 1 = some v := hv
    exact (Option.some.inj this).symm
  subst hv1
  decide

theorem fullscreenWM_backref_inv : BackRefInv fullscreenWM := by
  intro k w h
  have hm := Table.mem_of_find? h
  rw [show fullscreenWM.windows = [(1, fsWin1), (2, fsWin2)] from rfl] at hm
  rcases List.mem_cons.mp hm with heq | hm2
  · injection heq with h1 h2
    subst h1
    subst h2
    exact ⟨fsWorkspace, by decide, by decide⟩
  · rw [List.mem_singleton] at hm2
    injection hm2 with h1 h2
    subst h1
    subst h2
    exact ⟨fsWorkspace, by decide, by decide⟩

theorem fullscreenWM_wskeys : WsKeysMatch fullscreenWM := by
  intro k ws h
  have hm := Table.mem_of_find? h
  rw [show fullscreenWM.workspaces = [(10, fsWorkspace)] from rfl,
    List.mem_singleton] at hm
  injection hm with h1 h2
  subst h1
  subst h2
  rfl

/-- C5 witness: removing window 1 (the active member of workspace 10)
from `fullscreenWM` succeeds and the resulting state again satisfies the
active-member invariant. -/
theorem C5_witness :
    ∃ wm', fullscreenWM.remove_window_from_workspace 1 = some wm' ∧ ActiveInv wm' := by
  cases hr : fullscreenWM.remove_window_from_workspace 1 with
  | none => exact absurd hr (by decide)
  | some wm' =>
    exact ⟨wm', rfl,
      (C5_active_member_invariant fullscreenWM fullscreenWM_active_inv
        fullscreenWM_backref_inv fullscreenWM_wskeys).2.2.2 1 wm' hr⟩

/-- C6 witness: deleting window 2 from `fullscreenWM` succeeds and the
resulting state again satisfies the back-reference invariant. -/
theorem C6_witness :
    ∃ wm', fullscreenWM.delete_window 2 = some wm' ∧ BackRefInv wm' := by
  cases hr : fullscreenWM.delete_window 2 with
  | none => exact absurd hr (by decide)
  | some wm' =>
    exact ⟨wm', rfl,
      (C6_backref_invariant fullscreenWM fullscreenWM_backref_inv
        (by decide) fullscreenWM_wskeys).2 2 wm' hr⟩

end Egmde
